import Mathlib

/-!
Verification of the size-table extraction and normalization pipeline of the
`size-picker` repository.  The definitions below are a shallow embedding of the
JavaScript source in `src/unnamed/part_002` (the current server implementation;
`src/server/index.js` and `src/App.tsx` hold older variants of a few helpers).

Modelling conventions:
* JS strings are Lean `String`s, manipulated through their `List Char` data.
* JS regular expressions are translated into explicit character-level matchers
  that mirror the backtracking semantics of the concrete patterns used.
* JS numbers used for scores are `Int`; numeric cell values are exact fractions
  (the source compares `Number(...)` values only against 0 and 400, where IEEE
  rounding does not change the comparison for realistic cell strings).
* `null`-returning JS functions become `Option`-valued Lean functions.
* Case conversion is ASCII-only: the strings the pipeline handles are ASCII
  plus Hangul, and Hangul has no case.
-/

namespace SizePicker

/-! ### JS string primitives -/

/-- The character class matched by JavaScript `\s` (per ECMA-262: whitespace
plus line terminators), which is also the set trimmed by `String.prototype.trim`. -/
def isJsSpace (c : Char) : Bool :=
  c.toNat = 32 ∨ c.toNat = 9 ∨ c.toNat = 10 ∨ c.toNat = 13 ∨ c.toNat = 11 ∨
  c.toNat = 12 ∨ c.toNat = 0xa0 ∨ c.toNat = 0x1680 ∨
  (0x2000 ≤ c.toNat ∧ c.toNat ≤ 0x200a) ∨ c.toNat = 0x2028 ∨ c.toNat = 0x2029 ∨
  c.toNat = 0x202f ∨ c.toNat = 0x205f ∨ c.toNat = 0x3000 ∨ c.toNat = 0xfeff

/-- Models `replace(/\s+/g, " ")`: every maximal whitespace run becomes one space.
The boolean argument records whether the previous character was whitespace. -/
def collapseWsAux : Bool → List Char → List Char
  | _, [] => []
  | prevWs, c :: rest =>
    if isJsSpace c then
      if prevWs then collapseWsAux true rest else ' ' :: collapseWsAux true rest
    else c :: collapseWsAux false rest

def collapseWs (l : List Char) : List Char := collapseWsAux false l

/-- Models `String.prototype.trim` (trims the same class as `\s`). -/
def trimWs (l : List Char) : List Char :=
  ((l.dropWhile isJsSpace).reverse.dropWhile isJsSpace).reverse

/-- ASCII upper-casing, as applied by `toUpperCase` to the character sets the
pipeline handles (Hangul is case-less). -/
def upChar (c : Char) : Char :=
  if 97 ≤ c.toNat ∧ c.toNat ≤ 122 then Char.ofNat (c.toNat - 32) else c

/-- ASCII lower-casing (`toLowerCase`). -/
def downChar (c : Char) : Char :=
  if 65 ≤ c.toNat ∧ c.toNat ≤ 90 then Char.ofNat (c.toNat + 32) else c

def upperStr (s : String) : String := String.mk (s.data.map upChar)

def lowerStr (s : String) : String := String.mk (s.data.map downChar)

/-- Does `needle` occur as a contiguous sublist of `hay`?  (JS
`String.prototype.includes` / an unanchored literal regex alternative.) -/
def listContains (hay needle : List Char) : Bool :=
  match hay with
  | [] => needle = []
  | _ :: rest => needle.isPrefixOf hay || listContains rest needle

def strContains (hay needle : String) : Bool := listContains hay.data needle.data

/-! ### Text Normalizer (`normalizeCellText`, `normalizeAliasKey`) -/

/-- Embeds `normalizeCellText`: coerce to string (callers pass strings here; the JS
`String(value ?? "")` coercion for JSON values is modelled at the JSON layer),
collapse whitespace runs to one space, trim. -/
def normalizeCellText (s : String) : String := String.mk (trimWs (collapseWs s.data))

/-- Removal pass for the global lazy regex `\(.*?\)|\[.*?\]`: at each position,
an opening `(` (resp. `[`) with a later `)` (resp. `]`) is removed together
with everything up to the nearest such closer; other characters are kept.
(`normalizeCellText` has run first, so no line terminators remain and `.`
matches every remaining character.) -/
def stripParentheticalsF : Nat → List Char → List Char
  | 0, l => l
  | _ + 1, [] => []
  | fuel + 1, c :: rest =>
    if c = '(' ∧ rest.contains ')' then
      stripParentheticalsF fuel ((rest.dropWhile (fun d => d ≠ ')')).drop 1)
    else if c = '[' ∧ rest.contains ']' then
      stripParentheticalsF fuel ((rest.dropWhile (fun d => d ≠ ']')).drop 1)
    else
      c :: stripParentheticalsF fuel rest

/-- Removal pass entry point.  Every step of `stripParentheticalsF` consumes at
least one character, so `l.length + 1` units of fuel are never exhausted. -/
def stripParentheticals (l : List Char) : List Char :=
  stripParentheticalsF (l.length + 1) l

/-- Keep only characters in `[0-9a-zㄱ-힝]` (digits, lowercase ASCII,
the Hangul block used by the source). -/
def isAliasKeyChar (c : Char) : Bool :=
  ('0' ≤ c ∧ c ≤ '9') ∨ ('a' ≤ c ∧ c ≤ 'z') ∨ (0x3131 ≤ c.val ∧ c.val ≤ 0xd79d)

/-- Embeds `normalizeAliasKey`: normalize, lowercase, drop lazy parenthetical and
bracketed segments, drop whitespace, keep only `[0-9a-zㄱ-힝]`. -/
def normalizeAliasKey (s : String) : String :=
  String.mk
    (((stripParentheticals ((normalizeCellText s).data.map downChar)).filter
        (fun c => !isJsSpace c)).filter isAliasKeyChar)

/-! ### Label Classifier: alias tables -/

def TOTAL_LENGTH_LABEL : String := "총장"

def ITEM_LABEL : String := "항목"

/-- Embeds `MEASUREMENT_ALIAS_MAP`, in source order. -/
def MEASUREMENT_ALIAS_MAP : List (String × String) :=
  [("총장", TOTAL_LENGTH_LABEL),
   ("전체길이", TOTAL_LENGTH_LABEL),
   ("전체장", TOTAL_LENGTH_LABEL),
   ("기장", TOTAL_LENGTH_LABEL),
   ("상의총장", TOTAL_LENGTH_LABEL),
   ("하의총장", TOTAL_LENGTH_LABEL),
   ("바지총장", TOTAL_LENGTH_LABEL),
   ("length", TOTAL_LENGTH_LABEL),
   ("total", TOTAL_LENGTH_LABEL),
   ("소매", "소매"),
   ("소매길이", "소매"),
   ("화장", "소매"),
   ("sleeve", "소매"),
   ("어깨", "어깨"),
   ("어깨너비", "어깨"),
   ("어깨넓이", "어깨"),
   ("shoulder", "어깨"),
   ("가슴", "가슴"),
   ("가슴단면", "가슴"),
   ("품", "가슴"),
   ("chest", "가슴"),
   ("bust", "가슴"),
   ("허리", "허리"),
   ("허리단면", "허리"),
   ("waist", "허리"),
   ("엉덩이", "엉덩이"),
   ("힙", "엉덩이"),
   ("hip", "엉덩이"),
   ("허벅지", "허벅지"),
   ("허벅지단면", "허벅지"),
   ("thigh", "허벅지"),
   ("밑위", "밑위"),
   ("rise", "밑위"),
   ("밑단", "밑단"),
   ("밑단단면", "밑단"),
   ("hem", "밑단"),
   ("인심", "인심"),
   ("inseam", "인심")]

def TOTAL_LENGTH_ALIAS_KEYS : List String :=
  ["총장", "전체길이", "전체장", "기장",
   "totallength", "length", "total"]

/-- The token alternatives of `MEASUREMENT_LABEL_HINT_PATTERN` (an unanchored
case-insensitive alternation of literals, i.e. a "contains any" test).
`MEASUREMENT_KEY_HINT_PATTERN` in the source is the identical token list. -/
def MEASUREMENT_HINT_TOKENS : List String :=
  ["총장", "기장", "어깨", "가슴", "소매",
   "허리", "엉덩", "허벅", "밑위", "밑단",
   "길이", "length", "shoulder", "chest", "sleeve", "waist", "hip",
   "thigh", "rise", "hem", "inseam", "pit", "bust", "body", "width"]

def aliasMapLookup (key : String) : Option String :=
  (MEASUREMENT_ALIAS_MAP.find? (fun p => p.1 = key)).map (·.2)

def aliasMapValues : List String := MEASUREMENT_ALIAS_MAP.map (·.2)

def isTotalLengthAliasKey (aliasKey : String) : Bool :=
  aliasKey != "" &&
    TOTAL_LENGTH_ALIAS_KEYS.any (fun key => aliasKey = key || strContains aliasKey key)

def inferMeasurementLabelFromAliasKey (aliasKey : String) : String :=
  if aliasKey = "" then ""
  else if strContains aliasKey "shoulder" then "어깨"
  else if strContains aliasKey "chest" || strContains aliasKey "bust" ||
      strContains aliasKey "bodywidth" || strContains aliasKey "pit" then "가슴"
  else if strContains aliasKey "sleeve" || strContains aliasKey "arm" then "소매"
  else if strContains aliasKey "waist" then "허리"
  else if strContains aliasKey "hip" then "엉덩이"
  else if strContains aliasKey "thigh" then "허벅지"
  else if strContains aliasKey "rise" then "밑위"
  else if strContains aliasKey "hem" then "밑단"
  else if strContains aliasKey "inseam" then "인심"
  else ""

/-- Length of the prefix matched by `^(?:cm|mm|in(?:ch)?)\s+` (case-insensitive,
greedy `\s+`), or `none` when the regex does not match. -/
def tryUnitTok (l tok : List Char) : Option Nat :=
  if tok.isPrefixOf (l.map downChar) then
    let k := ((l.drop tok.length).takeWhile isJsSpace).length
    if k = 0 then none else some (tok.length + k)
  else none

def unitPrefixLen (l : List Char) : Option Nat :=
  ((tryUnitTok l ['c', 'm']).orElse fun _ =>
    (tryUnitTok l ['m', 'm']).orElse fun _ =>
      (tryUnitTok l ['i', 'n', 'c', 'h']).orElse fun _ => tryUnitTok l ['i', 'n'])

def stripUnitPrefix (s : String) : String :=
  match unitPrefixLen s.data with
  | none => s
  | some n => String.mk (s.data.drop n)

/-- Embeds `normalizeMeasurementLabel` (part_002 variant, with the total-length alias
set, the alias map, and the English-substring inference rules). -/
def normalizeMeasurementLabel (value : String) : String :=
  let raw := normalizeCellText value
  if raw = "" then ""
  else
    let sanitizedRaw := stripUnitPrefix raw
    let aliasKey := normalizeAliasKey sanitizedRaw
    if isTotalLengthAliasKey aliasKey then TOTAL_LENGTH_LABEL
    else
      match aliasMapLookup aliasKey with
      | some canonical => canonical
      | none =>
        let inferred := inferMeasurementLabelFromAliasKey aliasKey
        if inferred = "" then sanitizedRaw else inferred

def normalizeSizeLabel (value : String) : String := upperStr (normalizeCellText value)

/-! ### Label Classifier: size-label pattern matchers

`isLikelySizeLabel` tests the normalized upper-case text against a cascade of
anchored regular expressions.  Each branch below is one of those regexes,
translated into a deterministic matcher (each digit group in the source is
followed by a non-digit context, so greedy digit runs need no backtracking). -/

def isDigitChar (c : Char) : Bool := '0' ≤ c ∧ c ≤ '9'

/-- Maximal digit run: `(count, rest)`. -/
def digitRun (l : List Char) : Nat × List Char :=
  ((l.takeWhile isDigitChar).length, l.dropWhile isDigitChar)

def skipWs (l : List Char) : List Char := l.dropWhile isJsSpace

def expectChar (c : Char) : List Char → Option (List Char)
  | [] => none
  | d :: rest => if d = c then some rest else none

/-- Matches `\d{lo,hi}` in a context where the next pattern atom cannot match a digit. -/
def digits (lo hi : Nat) (l : List Char) : Option (List Char) :=
  let (n, rest) := digitRun l
  if lo ≤ n ∧ n ≤ hi then some rest else none

/-- The ordered alternation `XXS|XS|S|M|L|XL|XXL|XXXL` (the text is already
upper-cased, so the `/i` flags are immaterial). -/
def alphaSizeTokens : List (List Char) :=
  [['X', 'X', 'S'], ['X', 'S'], ['S'], ['M'], ['L'],
   ['X', 'L'], ['X', 'X', 'L'], ['X', 'X', 'X', 'L']]

/-- Try each alpha-size alternative in order; succeed when the continuation
accepts the rest (regex alternation with backtracking). -/
def tryAlpha (l : List Char) (k : List Char → Bool) : Bool :=
  alphaSizeTokens.any fun t => t.isPrefixOf l && k (l.drop t.length)

/-- Like `tryAlpha` but returning the captured token. -/
def tryAlphaTok (l : List Char) (k : List Char → Bool) : Option (List Char) :=
  alphaSizeTokens.findSome? fun t =>
    if t.isPrefixOf l && k (l.drop t.length) then some t else none

/-- Matches `\s*\(\s*\d{1,3}\s*\)$`. -/
def parenNumTail (l : List Char) : Bool :=
  (do
    let r ← expectChar '(' (skipWs l)
    let r ← digits 1 3 (skipWs r)
    let r ← expectChar ')' (skipWs r)
    guard (r = [])) |>.isSome

/-- Matches `\s*\([^)]{1,30}\)$`. -/
def parenDescTail (l : List Char) : Bool :=
  (do
    let r ← expectChar '(' (skipWs l)
    let content := r.takeWhile (fun c => c ≠ ')')
    guard (1 ≤ content.length ∧ content.length ≤ 30)
    let r ← expectChar ')' (r.dropWhile (fun c => c ≠ ')'))
    guard (r = [])) |>.isSome

/-- Matches `^(XXS|XS|S|M|L|XL|XXL|XXXL|FREE|ONE ?SIZE)$`. -/
def sizeAlphaExact (l : List Char) : Bool :=
  alphaSizeTokens.any (fun t => l = t) || l = "FREE".data ||
    l = "ONE SIZE".data || l = "ONESIZE".data

/-- Matches `^(?:XXS|XS|S|M|L|XL|XXL|XXXL)\s*\(\s*\d{1,3}\s*\)$`. -/
def sizeAlphaNumParen (l : List Char) : Bool := tryAlpha l parenNumTail

/-- Matches `^(?:XXS|XS|S|M|L|XL|XXL|XXXL)\s*\([^)]{1,30}\)$`. -/
def sizeAlphaDescParen (l : List Char) : Bool := tryAlpha l parenDescTail

/-- Matches `^\d{1,3}\s*\(\s*(?:XXS|XS|S|M|L|XL|XXL|XXXL)\s*\)$`. -/
def sizeNumAlphaParen (l : List Char) : Bool :=
  (do
    let r ← digits 1 3 l
    let r ← expectChar '(' (skipWs r)
    guard (tryAlpha (skipWs r) fun r2 =>
      ((expectChar ')' (skipWs r2)).map (fun x : List Char => x.isEmpty)).getD false)) |>.isSome

/-- Matches `^\d{1,3}\s*\(\s*\d{1,3}\s*~\s*\d{1,3}\s*\)$`. -/
def sizeNumRangeParen (l : List Char) : Bool :=
  (do
    let r ← digits 1 3 l
    let r ← expectChar '(' (skipWs r)
    let r ← digits 1 3 (skipWs r)
    let r ← expectChar '~' (skipWs r)
    let r ← digits 1 3 (skipWs r)
    let r ← expectChar ')' (skipWs r)
    guard (r = [])) |>.isSome

/-- Matches `^\d{1,3}\s*\([^)]{1,30}\)$`. -/
def sizeNumDescParen (l : List Char) : Bool :=
  (do
    let r ← digits 1 3 l
    guard (parenDescTail r)) |>.isSome

/-- Optional fraction then end: `(?:\.\d+)?$`. -/
def optFracEnd (l : List Char) : Bool :=
  match l with
  | [] => true
  | '.' :: r =>
    let (n, rest) := digitRun r
    1 ≤ n ∧ rest = []
  | _ => false

/-- Matches `^(EU|US|UK|JP|KR)\s*\d{1,3}(?:\.\d+)?$`. -/
def sizeRegion (l : List Char) : Bool :=
  [['E', 'U'], ['U', 'S'], ['U', 'K'], ['J', 'P'], ['K', 'R']].any fun t =>
    t.isPrefixOf l &&
      (((digits 1 3 (skipWs (l.drop 2))).map optFracEnd).getD false)

/-- Matches `^(?:W|L)?\d{2,3}(?:\s*\/\s*(?:W|L)?\d{2,3})$`. -/
def sizeWaistCombo (l : List Char) : Bool :=
  let afterPrefix : List Char → List Char := fun r =>
    match r with
    | c :: rest => if c = 'W' ∨ c = 'L' then rest else r
    | [] => r
  (do
    let r ← digits 2 3 (afterPrefix l)
    let r ← expectChar '/' (skipWs r)
    let r ← digits 2 3 (afterPrefix (skipWs r))
    guard (r = [])) |>.isSome

/-- Matches an optional separator: whitespace, one optional character among dash, slash and the two parentheses, then whitespace (the source's bracket class between alpha and numeric size tokens). -/
def optSepWs (l : List Char) : List Char :=
  let r := skipWs l
  match r with
  | c :: rest => if c = '-' ∨ c = '/' ∨ c = '(' ∨ c = ')' then skipWs rest else r
  | [] => r

/-- Matches an alpha size token, an optional separator, then 2-3 digits (the alpha-then-numeric mixed-combo regex). -/
def sizeAlphaNumMix (l : List Char) : Bool :=
  tryAlpha l fun r => ((digits 2 3 (optSepWs r)).map (fun x : List Char => x.isEmpty)).getD false

/-- Matches 2-3 digits, an optional separator, then an alpha size token (the numeric-then-alpha mixed-combo regex). -/
def sizeNumAlphaMix (l : List Char) : Bool :=
  (do
    let r ← digits 2 3 l
    guard (tryAlpha (optSepWs r) (· = []))) |>.isSome

def digitsToNat (l : List Char) : Nat :=
  l.foldl (fun acc c => 10 * acc + (c.toNat - 48)) 0

/-- Exact value of a decimal literal, kept as an unnormalized fraction
`num / den` with `den` a positive power of ten (the comparisons the source
makes on `Number(text)` are decided exactly on this form). -/
structure DecNum where
  num : Int
  den : Nat
deriving DecidableEq, Repr

/-- Holds when `0 ≤ num / den`. -/
def DecNum.nonneg (v : DecNum) : Bool := 0 ≤ v.num

/-- Holds when `0 < num / den`. -/
def DecNum.pos (v : DecNum) : Bool := 0 < v.num

/-- Holds when `num / den ≤ b`. -/
def DecNum.leNat (v : DecNum) (b : Nat) : Bool := v.num ≤ (b : Int) * (v.den : Int)

/-- Holds when `num / den = k`. -/
def DecNum.eqNat (v : DecNum) (k : Nat) : Bool := v.num = (k : Int) * (v.den : Int)

/-- The exact value denoted by an (optionally signed) decimal literal. -/
def ratOfParts (neg : Bool) (intDigits fracDigits : List Char) : DecNum :=
  let mag : Nat := digitsToNat intDigits * 10 ^ fracDigits.length + digitsToNat fracDigits
  ⟨if neg then -(mag : Int) else (mag : Int), 10 ^ fracDigits.length⟩

/-- Split a full match of `^-?\d+(?:\.\d+)?$` into sign, integer digits and
fraction digits. -/
def splitNumeric (l : List Char) : Option (Bool × List Char × List Char) :=
  let (neg, l') : Bool × List Char :=
    match l with
    | '-' :: rest => (true, rest)
    | _ => (false, l)
  let intPart := l'.takeWhile isDigitChar
  let rest := l'.dropWhile isDigitChar
  if intPart.length = 0 then none
  else
    match rest with
    | [] => some (neg, intPart, [])
    | '.' :: fracRest =>
      let fracPart := fracRest.takeWhile isDigitChar
      if fracPart.length ≥ 1 ∧ fracRest.dropWhile isDigitChar = [] then
        some (neg, intPart, fracPart)
      else none
    | _ => none

/-- Final branch of `isLikelySizeLabel`: `^-?\d{1,4}(?:\.\d+)?$` together with
the `0 ≤ Number(text) ≤ 400` check. -/
def sizeNumericPlain (l : List Char) : Bool :=
  match splitNumeric l with
  | none => false
  | some (neg, intPart, fracPart) =>
    if intPart.length ≤ 4 then
      let v := ratOfParts neg intPart fracPart
      v.nonneg && v.leNat 400
    else false

/-- Embeds `isLikelySizeLabel` (part_002 variant): the source's cascade of early
returns over the normalized upper-case text. -/
def isLikelySizeLabel (value : String) : Bool :=
  let text := normalizeSizeLabel value
  if text = "" then false
  else
    let l := text.data
    sizeAlphaExact l || sizeAlphaNumParen l || sizeAlphaDescParen l ||
      sizeNumAlphaParen l || sizeNumRangeParen l || sizeNumDescParen l ||
      sizeRegion l || sizeWaistCombo l || sizeAlphaNumMix l ||
      sizeNumAlphaMix l || sizeNumericPlain l

/-- Embeds `normalizeComparableSizeLabel`: strip `M(95)` / `M(desc)` / `95(M)` /
`M SIZE` decorations down to the bare alpha token. -/
def normalizeComparableSizeLabel (value : String) : String :=
  let text := normalizeSizeLabel value
  if text = "" then ""
  else
    let l := text.data
    match tryAlphaTok l parenNumTail with
    | some tok => String.mk tok
    | none =>
    match tryAlphaTok l parenDescTail with
    | some tok => String.mk tok
    | none =>
    match
      (do
        let r ← digits 1 3 l
        let r ← expectChar '(' (skipWs r)
        tryAlphaTok (skipWs r) fun r2 =>
          ((expectChar ')' (skipWs r2)).map (fun x : List Char => x.isEmpty)).getD false) with
    | some tok => String.mk tok
    | none =>
    match tryAlphaTok l (fun r => skipWs r = "SIZE".data) with
    | some tok => String.mk tok
    | none => text

/-- Embeds `isLikelyMeasurementLabel` (strict: resolves through the alias map). -/
def isLikelyMeasurementLabel (value : String) : Bool :=
  let normalized := normalizeMeasurementLabel value
  normalized != "" && aliasMapValues.contains normalized

/-- Embeds `MEASUREMENT_LABEL_HINT_PATTERN.test(normalizeCellText(value))`
(case-insensitive unanchored alternation = contains-any, after lower-casing). -/
def measurementHintTest (value : String) : Bool :=
  MEASUREMENT_HINT_TOKENS.any fun tok =>
    strContains (lowerStr (normalizeCellText value)) tok

/-- Embeds `isLikelyMeasurementLabelLoose`. -/
def isLikelyMeasurementLabelLoose (value : String) : Bool :=
  let normalized := normalizeMeasurementLabel value
  if normalized != "" && aliasMapValues.contains normalized then true
  else measurementHintTest value

/-! ### Table Shape Normalizer -/

structure SizeTable where
  headers : List String
  rows : List (List String)
deriving DecidableEq, Repr

/-- Embeds `makeRectangularRows`: normalize each cell, pad short rows with `""`,
truncate long ones to exactly `width` columns. -/
def makeRectangularRows (rows : List (List String)) (width : Nat) : List (List String) :=
  rows.map fun row =>
    let normalized := row.map normalizeCellText
    (normalized ++ List.replicate (width - normalized.length) "").take width

/-- Models `Math.max(x, ...list, 0)`. -/
def listMax0 (xs : List Nat) : Nat := xs.foldl max 0

/-- Embeds `transposeTable`. -/
def transposeTable (t : SizeTable) : SizeTable :=
  let width := listMax0 (t.headers.length :: t.rows.map List.length)
  let fullHeaders := t.headers ++ List.replicate (width - t.headers.length) ""
  let fullRows := makeRectangularRows t.rows width
  let matrix := fullHeaders :: fullRows
  if width = 0 then ⟨[], []⟩
  else
    let transposed :=
      (List.range width).map fun colIdx =>
        matrix.map fun row => normalizeCellText (row.getD colIdx "")
    ⟨transposed.headD [], transposed.tail⟩

/-- The regex `^-?\d+(?:\.\d+)?(?:\s*(?:cm|mm|in|inch))?$` (case-insensitive)
used for the numeric-row-header penalty. -/
def numericWithUnitTest (value : String) : Bool :=
  let l := (normalizeCellText value).data
  let (neg, l') : Bool × List Char :=
    match l with
    | '-' :: rest => (true, rest)
    | _ => (false, l)
  let _ := neg
  let (n, rest) := digitRun l'
  if n = 0 then false
  else
    let rest2 :=
      match rest with
      | '.' :: fr =>
        let (m, fr2) := digitRun fr
        if 1 ≤ m then some fr2 else none
      | _ => some rest
    match rest2 with
    | none => false
    | some r =>
      r = [] ||
        (let unit := (skipWs r).map downChar
         unit = ['c', 'm'] || unit = ['m', 'm'] || unit = ['i', 'n'] ||
           unit = ['i', 'n', 'c', 'h'])

/-- Embeds `tableOrientationScore` (part_002 variant: weights 4/4/4/3/2 and the
numeric-row-header penalty). -/
def tableOrientationScore (t : SizeTable) : Int :=
  let columnHeaders := t.headers.tail
  let rowHeaders := t.rows.map fun row => row.headD ""
  let sizeInColumns := columnHeaders.countP (fun v => isLikelySizeLabel v)
  let measurementInRows := rowHeaders.countP (fun v => isLikelyMeasurementLabelLoose v)
  let sizeInRows := rowHeaders.countP (fun v => isLikelySizeLabel v)
  let measurementInColumns := columnHeaders.countP (fun v => isLikelyMeasurementLabelLoose v)
  let numericRowHeaders := rowHeaders.countP (fun v => numericWithUnitTest v)
  (sizeInColumns : Int) * 4 + (measurementInRows : Int) * 4 -
    (sizeInRows : Int) * 4 - (measurementInColumns : Int) * 3 -
    (numericRowHeaders : Int) * 2

def isTotalLengthRow (row : List String) : Bool :=
  normalizeMeasurementLabel (row.headD "") = TOTAL_LENGTH_LABEL

/-- Find the first total-length row in a list and return it together with the
remaining rows in order (`findIndex` + `splice`). -/
def extractFirstTotal : List (List String) → Option (List String × List (List String))
  | [] => none
  | r :: rs =>
    if isTotalLengthRow r then some (r, rs)
    else
      match extractFirstTotal rs with
      | none => none
      | some (t, rest) => some (t, r :: rest)

/-- Embeds `sortMeasurementRows`: move the first total-length row (if any, and not
already first) to the front; otherwise leave the order untouched. -/
def sortMeasurementRows (rows : List (List String)) : List (List String) :=
  match rows with
  | [] => []
  | r :: rs =>
    if isTotalLengthRow r then rows
    else
      match extractFirstTotal rs with
      | none => rows
      | some (t, rest) => t :: r :: rest

/-- Force `headers[0]` to the canonical item label and upper-case the rest. -/
def finalizeHeaders : List String → List String
  | [] => [ITEM_LABEL]
  | _ :: t => ITEM_LABEL :: t.map normalizeSizeLabel

/-- Canonicalize a row's first cell through the Label Classifier. -/
def setRowLabel : List String → List String
  | [] => [normalizeMeasurementLabel ""]
  | c :: cs => normalizeMeasurementLabel c :: cs

/-- Post-selection normalization of `standardizeSizeTable`: pad to the full
width, canonicalize headers and row labels, pin the total-length row. -/
def finalizeStd (selected : SizeTable) : Option SizeTable :=
  let width := listMax0 (selected.headers.length :: selected.rows.map List.length)
  if width = 0 then none
  else
    let normalizedHeaders :=
      finalizeHeaders
        ((selected.headers ++ List.replicate (width - selected.headers.length) "").take width)
    let normalizedRows := (makeRectangularRows selected.rows width).map setRowLabel
    some ⟨normalizedHeaders, sortMeasurementRows normalizedRows⟩

/-- Embeds `standardizeSizeTable` (part_002 variant): normalize cells, keep
the orientation that scores strictly higher (`>`: ties favor as-given), then
normalize shape and labels through `finalizeStd`. -/
def standardizeSizeTable (headers0 : List String) (rows0 : List (List String)) :
    Option SizeTable :=
  let headers := headers0.map normalizeCellText
  let rows := rows0.map fun r => r.map normalizeCellText
  if headers.length = 0 ∧ rows.length = 0 then none
  else
    let asIs : SizeTable := ⟨headers, rows⟩
    let transposed := transposeTable asIs
    let selected :=
      if tableOrientationScore asIs < tableOrientationScore transposed then transposed
      else asIs
    finalizeStd selected

/-! ### Numeric-looking cells -/

/-- The word-character class of JavaScript `\w` (used for `\b` boundaries). -/
def isWordChar (c : Char) : Bool :=
  isDigitChar c ∨ ('a' ≤ c ∧ c ≤ 'z') ∨ ('A' ≤ c ∧ c ≤ 'Z') ∨ c = '_'

/-- Alternatives of `\b(cm|mm|in|inch|kg|g|oz)\b`, in source order. -/
def unitWordTokens : List (List Char) :=
  [['c', 'm'], ['m', 'm'], ['i', 'n'], ['i', 'n', 'c', 'h'],
   ['k', 'g'], ['g'], ['o', 'z']]

/-- First unit-token alternative matching at the head of `l` with a word
boundary after it (all tokens end in a letter, so the boundary holds exactly
when the next character is not a word character). -/
def unitWordAt (l : List Char) : Option (List Char) :=
  unitWordTokens.find? fun t =>
    t.isPrefixOf l &&
      (match l.drop t.length with
       | [] => true
       | d :: _ => !isWordChar d)

/-- Global replacement of `\b(cm|mm|in|inch|kg|g|oz)\b` by the empty string:
scan left to right tracking the previous character for the leading boundary
(all tokens start with a letter, so it holds exactly when the previous
character is absent or not a word character). -/
def removeUnitWordsF : Nat → Option Char → List Char → List Char
  | 0, _, l => l
  | _ + 1, _, [] => []
  | fuel + 1, prev, c :: rest =>
    let boundaryBefore : Bool :=
      match prev with
      | none => true
      | some p => !isWordChar p
    match boundaryBefore, unitWordAt (c :: rest) with
    | true, some t =>
      removeUnitWordsF fuel (some (t.getLastD c)) (rest.drop (t.length - 1))
    | _, _ => c :: removeUnitWordsF fuel (some c) rest

/-- Scan entry point.  Every step of `removeUnitWordsF` consumes at least one
character, so `l.length + 1` units of fuel are never exhausted. -/
def removeUnitWords (prev : Option Char) (l : List Char) : List Char :=
  removeUnitWordsF (l.length + 1) prev l

/-- Shared cleaning step of `isNumericLikeCell` / `parseNumericCellValue`:
lowercase, drop commas, drop unit words at word boundaries, drop whitespace. -/
def cleanNumericCandidate (value : String) : List Char :=
  let text := (lowerStr (normalizeCellText value)).data
  ((removeUnitWords none (text.filter (fun c => c ≠ ','))).filter
    (fun c => !isJsSpace c))

/-- Embeds `isNumericLikeCell`: the cleaned text fully matches
`^-?\d+(?:\.\d+)?$`. -/
def isNumericLikeCell (value : String) : Bool :=
  let text := (normalizeCellText value)
  if text = "" then false
  else (splitNumeric (cleanNumericCandidate value)).isSome

/-- Embeds `parseNumericCellValue`.  The JS `Number(cleaned)` is modelled by
the exact rational value of the literal; the source only compares it with 0
and 400, where IEEE double rounding agrees for any realistic cell. -/
def parseNumericCellValue (value : String) : Option DecNum :=
  let text := (normalizeCellText value)
  if text = "" then none
  else
    match splitNumeric (cleanNumericCandidate value) with
    | none => none
    | some (neg, ip, fp) => some (ratOfParts neg ip fp)

/-- Embeds `isLikelyMeasurementKey` (strict label, or the key-hint pattern,
which is token-for-token the label-hint pattern). -/
def isLikelyMeasurementKey (value : String) : Bool :=
  let text := normalizeCellText value
  if text = "" then false
  else isLikelyMeasurementLabel text || measurementHintTest text

/-! ### Candidate Selector -/

/-- Embeds `hasUsableSizeTableShape`. -/
def hasUsableSizeTableShape (table : SizeTable) : Bool :=
  if table.headers.length < 3 ∨ table.rows.length < 1 then false
  else
    let normalizedRows := table.rows.filter (fun r => 0 < r.length)
    if normalizedRows.length < 1 then false
    else
      let measurementLikeRows := normalizedRows.countP fun row =>
        isLikelyMeasurementLabelLoose (row.headD "") || isLikelyMeasurementKey (row.headD "")
      if measurementLikeRows < 1 then false
      else
        let numericCells :=
          (normalizedRows.map fun row =>
            row.tail.countP (fun cell => (parseNumericCellValue cell).isSome)).sum
        if numericCells < max 2 (table.headers.length - 1) then false
        else true

/-- Embeds `areSequentialNumericSizeHeaders`: every header is numeric
(`^-?\d+(?:\.\d+)?$` after size normalization) and equals its index. -/
def areSequentialNumericSizeHeaders (headers : List String) : Bool :=
  decide (0 < headers.length) &&
    headers.enum.all fun p =>
      match splitNumeric (normalizeSizeLabel p.2).data with
      | none => false
      | some (neg, ip, fp) => (ratOfParts neg ip fp).eqNat p.1

/-- Embeds `uniqValues`: normalize, drop empties and duplicates, keep first
occurrences in order. -/
def uniqValuesAux (seen : List String) : List String → List String
  | [] => []
  | v :: rest =>
    let n := normalizeCellText v
    if n = "" ∨ seen.contains n then uniqValuesAux seen rest
    else n :: uniqValuesAux (n :: seen) rest

def uniqValues (values : List String) : List String := uniqValuesAux [] values

/-- Models `headers[0] || ITEM_LABEL` (the empty string is the only falsy
string). -/
def headOrItem (hs : List String) : String :=
  let h := hs.headD ""
  if h = "" then ITEM_LABEL else h

/-- The `optionIndexByValue` map: first header position (1-based into the full
header list) for each matched option value, in header order. -/
def buildOptionIndex (optionSet normalizedHeaders : List String) :
    List (String × Nat) :=
  normalizedHeaders.enum.foldl
    (fun acc p =>
      if optionSet.contains p.2 && !(acc.any fun q => q.1 = p.2) then
        acc ++ [(p.2, p.1 + 1)]
      else acc)
    []

def idxLookup (m : List (String × Nat)) (v : String) : Option Nat :=
  (m.find? fun q => q.1 = v).map (·.2)

/-- Embeds `alignAndValidateSizeTableByOptionLabels`.  (`Math.ceil(x * 0.5)`
and `Math.floor(x * 0.4)` are exact integer functions of `x` for the list
lengths involved; they are written as `(x + 1) / 2` and `2 * x / 5`.) -/
def alignNormalizedOptions (optionSizeLabels : List String) : List String :=
  uniqValues ((optionSizeLabels.map normalizeComparableSizeLabel).filter
    fun v => isLikelySizeLabel v)

def alignNormalizedHeaders (table : SizeTable) : List String :=
  (table.headers.tail.map normalizeComparableSizeLabel).filter fun v => v ≠ ""

def alignAndValidateSizeTableByOptionLabels (table : SizeTable)
    (optionSizeLabels : List String) : Option SizeTable :=
  if !hasUsableSizeTableShape table then none
  else
    let normalizedOptions := alignNormalizedOptions optionSizeLabels
    if normalizedOptions.length < 2 then some table
    else
      let normalizedHeaders := alignNormalizedHeaders table
      if normalizedHeaders.length < 2 then none
      else if areSequentialNumericSizeHeaders normalizedHeaders &&
          normalizedOptions.length = normalizedHeaders.length then
        some ⟨headOrItem table.headers :: normalizedOptions, table.rows⟩
      else
        let optionIndexByValue := buildOptionIndex normalizedOptions normalizedHeaders
        let matchedOptionsInOrder :=
          normalizedOptions.filter fun v => (idxLookup optionIndexByValue v).isSome
        if 2 ≤ matchedOptionsInOrder.length then
          let projectedRows := table.rows.map fun row =>
            row.headD "" ::
              matchedOptionsInOrder.map fun v =>
                row.getD ((idxLookup optionIndexByValue v).getD 0) ""
          let projectedTable : SizeTable :=
            ⟨headOrItem table.headers :: matchedOptionsInOrder, projectedRows⟩
          if hasUsableSizeTableShape projectedTable then some projectedTable else none
        else
          let overlapCount := normalizedHeaders.countP fun h => normalizedOptions.contains h
          let requiredOverlap :=
            max 1 (min 2 ((min normalizedHeaders.length normalizedOptions.length + 1) / 2))
          if overlapCount < requiredOverlap then none
          else if normalizedOptions.length + 1 < normalizedHeaders.length then none
          else
            let unknownHeaderCount :=
              normalizedHeaders.countP fun h => !(normalizedOptions.contains h)
            if max 1 (2 * normalizedHeaders.length / 5) < unknownHeaderCount then none
            else some table

/-- Matches `^\d{1,4}(?:\s*\([^)]{1,30}\))?$` (numeric-convention header). -/
def numericHeaderTest (l : List Char) : Bool :=
  match digits 1 4 l with
  | none => false
  | some r => r.isEmpty || parenDescTail r

/-- The numeric values collected from a table's value cells by
`scoreSizeTableCandidate`. -/
def numericCellValuesOf (table : SizeTable) : List DecNum :=
  (table.rows.map fun row => row.tail.filterMap parseNumericCellValue).flatten

/-- Embeds `scoreSizeTableCandidate` (with `plausible/total < 0.5` written as
`2 * plausible < total`, exact for the IEEE division of counts). -/
def scoreSizeTableCandidate : Option SizeTable → Int
  | none => -1
  | some table =>
    if !hasUsableSizeTableShape table then -1
    else
      let hintedMeasurementRows :=
        table.rows.countP fun row => isLikelyMeasurementKey (row.headD "")
      if hintedMeasurementRows = 0 then -1
      else
        let numericValues := numericCellValuesOf table
        if 2 ≤ numericValues.length ∧
            2 * numericValues.countP (fun v => v.pos && v.leNat 400) <
              numericValues.length then -1
        else
          let normalizedSizeHeaders :=
            (table.headers.tail.map normalizeComparableSizeLabel).filter fun v => v ≠ ""
          let sizeHeaderCount := normalizedSizeHeaders.countP fun h => isLikelySizeLabel h
          let measurementRowCount :=
            table.rows.countP fun row => isLikelyMeasurementLabel (row.headD "")
          let alphaSizeHeaderCount :=
            normalizedSizeHeaders.countP fun h => sizeAlphaExact h.data
          let numericSizeHeaderCount :=
            normalizedSizeHeaders.countP fun h => numericHeaderTest h.data
          let mixedHeaderPenalty : Int :=
            if 0 < alphaSizeHeaderCount ∧ 0 < numericSizeHeaderCount then 5 else 0
          (sizeHeaderCount : Int) * 3 + (measurementRowCount : Int) * 3 +
            (hintedMeasurementRows : Int) * 2 + (table.rows.length : Int) -
            mixedHeaderPenalty

/-! ### JSON model

The structured-data extractors walk arbitrary JSON values.  `Json.num` carries
an `Int` (the payloads the pipeline meets carry integral numbers; `String(n)`
of a safe integer is its decimal numeral). -/

inductive Json where
  | str (s : String)
  | num (n : Int)
  | bool (b : Bool)
  | null
  | arr (items : List Json)
  | obj (fields : List (String × Json))

/-- Models JS truthiness of a JSON value. -/
def jsTruthy : Json → Bool
  | .str s => s ≠ ""
  | .num n => n ≠ 0
  | .bool b => b
  | .null => false
  | .arr _ => true
  | .obj _ => true

mutual
/-- Models the JS `String(value)` coercion on JSON values. -/
def jsToString : Json → String
  | .str s => s
  | .num n => toString n
  | .bool b => cond b "true" "false"
  | .null => "null"
  | .arr xs => String.intercalate "," (jsToStringElems xs)
  | .obj _ => "[object Object]"

/-- Element coercion inside `Array.prototype.toString` (null elements join as
the empty string). -/
def jsToStringElems : List Json → List String
  | [] => []
  | .null :: rest => "" :: jsToStringElems rest
  | x :: rest => jsToString x :: jsToStringElems rest
end

/-- Models `String(value ?? "")` for a possibly-absent (`undefined`) or null
property. -/
def jsRawString : Option Json → String
  | none => ""
  | some .null => ""
  | some j => jsToString j

/-- Models `normalizeCellText(value)` on a JSON value. -/
def jsCellText (o : Option Json) : String := normalizeCellText (jsRawString o)

/-- Object property lookup (own properties of an object literal; the prototype
chain is not modelled). -/
def objGet (fields : List (String × Json)) (k : String) : Option Json :=
  (fields.find? fun p => p.1 = k).map (·.2)

def isObjLike : Json → Bool
  | .arr _ => true
  | .obj _ => true
  | _ => false

/-! ### Structured-data (JSON) extractors -/

/-- Embeds `extractSizeTableFromArrayOfArrays`. -/
def extractSizeTableFromArrayOfArrays (xs : List Json) : Option SizeTable :=
  if xs.length < 2 then none
  else
    let normalized :=
      (xs.map fun row =>
        match row with
        | .arr cells => cells.map fun c => jsCellText (some c)
        | _ => []).filter fun r => 2 ≤ r.length
    if normalized.length < 2 then none
    else standardizeSizeTable (normalized.headD []) normalized.tail

/-- Count-map over normalized keys preserving first-insertion order
(a JS `Map`). -/
def bumpKey (acc : List (String × Nat)) (k : String) : List (String × Nat) :=
  if acc.any (fun p => p.1 = k) then
    acc.map fun p => if p.1 = k then (p.1, p.2 + 1) else p
  else acc ++ [(k, 1)]

def keyCountsOf (objectsFields : List (List (String × Json))) : List (String × Nat) :=
  objectsFields.foldl
    (fun acc fields =>
      fields.foldl
        (fun acc2 f =>
          let nk := normalizeCellText f.1
          if nk = "" then acc2 else bumpKey acc2 nk)
        acc)
    []

/-- Models `Math.max(2, Math.ceil(n * 0.6))` (exact for counts). -/
def minPresenceOf (n : Nat) : Nat := max 2 ((3 * n + 4) / 5)

/-- Tokens of `SIZE_KEY_NAME_PATTERN` (case-insensitive contains-any). -/
def SIZE_KEY_NAME_TOKENS : List String :=
  ["size", "사이즈", "옵션", "치수", "규격", "호수"]

def sizeKeyNameTest (k : String) : Bool :=
  SIZE_KEY_NAME_TOKENS.any fun tok => strContains (lowerStr k) tok

/-- First maximum of `f` over `ks` (a stable descending sort followed by
taking the head). -/
def argmaxFirst (ks : List String) (f : String → Nat) : Option String :=
  ks.foldl
    (fun acc k =>
      match acc with
      | none => some k
      | some b => if f b < f k then some k else acc)
    none

/-- Embeds `extractSizeTableFromArrayOfObjects`. -/
def extractSizeTableFromArrayOfObjects (xs : List Json) : Option SizeTable :=
  let objects := xs.filterMap fun j =>
    match j with
    | .obj f => some f
    | _ => none
  if objects.length < 2 then none
  else
    let keyCounts := keyCountsOf objects
    let minPresence := minPresenceOf objects.length
    let commonKeys := (keyCounts.filter fun p => minPresence ≤ p.2).map (·.1)
    if commonKeys.length < 2 then none
    else
      let sizeScoreForKey := fun (k : String) =>
        objects.countP fun fields => isLikelySizeLabel (jsRawString (objGet fields k))
      let sizeKey :=
        match commonKeys.find? sizeKeyNameTest with
        | some k => k
        | none => (argmaxFirst commonKeys sizeScoreForKey).getD ""
      if sizeKey = "" ∨ sizeScoreForKey sizeKey < 2 then none
      else
        let sizeValues :=
          (objects.map fun fields =>
            upperStr (jsCellText (objGet fields sizeKey))).filter fun v => v ≠ ""
        if (uniqValues sizeValues).length < 2 then none
        else
          let measureKeys := commonKeys.filter fun k =>
            k ≠ sizeKey ∧
              minPresence ≤
                objects.countP fun fields => isNumericLikeCell (jsRawString (objGet fields k))
          if measureKeys.length = 0 then none
          else if measureKeys.countP (fun k => isLikelyMeasurementKey k) = 0 then none
          else
            standardizeSizeTable ("size" :: sizeValues)
              (measureKeys.map fun k =>
                k :: objects.map fun fields => jsCellText (objGet fields k))

/-- Embeds `extractSizeTableFromSizeMapObject`. -/
def extractSizeTableFromSizeMapObject (fields : List (String × Json)) :
    Option SizeTable :=
  let entries := fields.filterMap fun p =>
    match p.2 with
    | .obj vf => if 1 ≤ vf.length then some (p.1, vf) else none
    | _ => none
  if entries.length < 2 then none
  else
    let sizeLabels := (entries.map fun e => normalizeSizeLabel e.1).filter fun v => v ≠ ""
    if sizeLabels.countP (fun lab => isLikelySizeLabel lab) < 2 then none
    else
      let valueObjects := entries.map (·.2)
      let keyCounts := keyCountsOf valueObjects
      let minPresence := minPresenceOf valueObjects.length
      let measureKeys :=
        ((keyCounts.filter fun p => minPresence ≤ p.2).map (·.1)).filter fun k =>
          minPresence ≤
            valueObjects.countP fun vf => isNumericLikeCell (jsRawString (objGet vf k))
      if measureKeys.length = 0 then none
      else if measureKeys.countP (fun k => isLikelyMeasurementKey k) = 0 then none
      else
        standardizeSizeTable ("size" :: sizeLabels)
          (measureKeys.map fun k =>
            k :: valueObjects.map fun vf => jsCellText (objGet vf k))

/-- Models `parseSizeTable(node)` for an object node whose `headers` and
`rows` properties are arrays (the guard under which the JSON walker calls it). -/
def standardizeSizeTableFromJson (fields : List (String × Json)) : Option SizeTable :=
  match objGet fields "headers", objGet fields "rows" with
  | some (.arr hs), some (.arr rs) =>
    standardizeSizeTable (hs.map fun h => jsRawString (some h))
      (rs.map fun r =>
        match r with
        | .arr cells => cells.map fun c => jsRawString (some c)
        | _ => [])
  | _, _ => none

/-- Children pushed by the JSON walker (truthy values of `typeof "object"`). -/
def jsonChildren : Json → List Json
  | .arr xs => xs.filter isObjLike
  | .obj fields => (fields.map (·.2)).filter isObjLike
  | _ => []

/-- One `consider(table)` step: keep the candidate when its score is strictly
higher than the best so far. -/
def considerTable (best : Option SizeTable × Int) (tbl : Option SizeTable) :
    Option SizeTable × Int :=
  let score := scoreSizeTableCandidate tbl
  if best.2 < score then (tbl, score) else best

/-- The per-node body of the `extractSizeTableFromJsonData` loop. -/
def processNode (node : Json) (best : Option SizeTable × Int) :
    Option SizeTable × Int :=
  match node with
  | .arr xs =>
    considerTable (considerTable best (extractSizeTableFromArrayOfArrays xs))
      (extractSizeTableFromArrayOfObjects xs)
  | .obj fields =>
    let best1 :=
      match objGet fields "headers", objGet fields "rows" with
      | some (.arr _), some (.arr _) =>
        considerTable best (standardizeSizeTableFromJson fields)
      | _, _ => best
    considerTable best1 (extractSizeTableFromSizeMapObject fields)
  | _ => best

/-- The bounded worklist of `extractSizeTableFromJsonData`: `fuel` is the
remaining visit budget (`3000 - visited`), the stack top is the list head, and
children are pushed so that they pop in the source's LIFO order.  The second
component of the result counts popped nodes. -/
def jsonLoop : Nat → List Json → (Option SizeTable × Int) →
    (Option SizeTable × Int) × Nat
  | 0, _, best => (best, 0)
  | _ + 1, [], best => (best, 0)
  | fuel + 1, node :: stack, best =>
    let best' := processNode node best
    let stack' := (jsonChildren node).reverse ++ stack
    let (r, n) := jsonLoop fuel stack' best'
    (r, n + 1)

/-- Embeds `extractSizeTableFromJsonData`: bounded traversal, then the
minimum-score gate `bestScore >= 4`. -/
def extractSizeTableFromJsonData (jsonData : Option Json) : Option SizeTable :=
  match jsonData with
  | none => none
  | some j =>
    if !jsTruthy j then none
    else
      let r := jsonLoop 3000 [j] (none, -1)
      if 4 ≤ r.1.2 then r.1.1 else none

/-! ### HTML utilities -/

/-- Case-insensitive prefix test against a lowercase token. -/
def prefixIcase : List Char → List Char → Bool
  | [], _ => true
  | _ :: _, [] => false
  | t :: ts, c :: cs => t = downChar c && prefixIcase ts cs

/-- Index of the first case-insensitive occurrence of a lowercase token. -/
def firstIdxIcase (tok : List Char) : List Char → Option Nat
  | [] => if tok.isEmpty then some 0 else none
  | c :: rest =>
    if prefixIcase tok (c :: rest) then some 0
    else (firstIdxIcase tok rest).map (· + 1)

/-- Models `String.fromCharCode` composed with the entity value: code units
are taken mod 2^16; values that are not Unicode scalar values (lone
surrogates) are represented by U+FFFD. -/
def charFromCode (n : Nat) : Char :=
  let m := n % 65536
  if m.isValidChar then Char.ofNat m else '�'

def isHexDigitChar (c : Char) : Bool :=
  isDigitChar c ∨ ('a' ≤ c ∧ c ≤ 'f') ∨ ('A' ≤ c ∧ c ≤ 'F')

def hexVal (c : Char) : Nat :=
  if isDigitChar c then c.toNat - 48
  else if 'a' ≤ c ∧ c ≤ 'f' then c.toNat - 87
  else if 'A' ≤ c ∧ c ≤ 'F' then c.toNat - 55
  else 0

def hexToNat (l : List Char) : Nat := l.foldl (fun acc c => 16 * acc + hexVal c) 0

/-- Replacement pass for `/&#(\d+);/g`. -/
def decodeNumericEntitiesF : Nat → List Char → List Char
  | 0, l => l
  | _ + 1, [] => []
  | fuel + 1, '&' :: '#' :: rest =>
    let ds := rest.takeWhile isDigitChar
    if 1 ≤ ds.length ∧ (rest.drop ds.length).headD ' ' = ';' then
      charFromCode (digitsToNat ds) ::
        decodeNumericEntitiesF fuel ((rest.drop ds.length).drop 1)
    else '&' :: decodeNumericEntitiesF fuel ('#' :: rest)
  | fuel + 1, c :: rest => c :: decodeNumericEntitiesF fuel rest

/-- Replacement entry point.  Every step of `decodeNumericEntitiesF` consumes at
least one character, so `l.length + 1` units of fuel are never exhausted. -/
def decodeNumericEntities (l : List Char) : List Char :=
  decodeNumericEntitiesF (l.length + 1) l

def decodeHexEntitiesF : Nat → List Char → List Char
  | 0, l => l
  | _ + 1, [] => []
  | fuel + 1, '&' :: '#' :: x :: rest =>
    if x = 'x' ∨ x = 'X' then
      let ds := rest.takeWhile isHexDigitChar
      if 1 ≤ ds.length ∧ (rest.drop ds.length).headD ' ' = ';' then
        charFromCode (hexToNat ds) :: decodeHexEntitiesF fuel ((rest.drop ds.length).drop 1)
      else '&' :: decodeHexEntitiesF fuel ('#' :: x :: rest)
    else '&' :: decodeHexEntitiesF fuel ('#' :: x :: rest)
  | fuel + 1, c :: rest => c :: decodeHexEntitiesF fuel rest

/-- Replacement entry point.  Every step of `decodeHexEntitiesF` consumes at
least one character, so `l.length + 1` units of fuel are never exhausted. -/
def decodeHexEntities (l : List Char) : List Char :=
  decodeHexEntitiesF (l.length + 1) l

def replaceLitIcaseF (tokLower rep : List Char) : Nat → List Char → List Char
  | 0, l => l
  | _ + 1, [] => []
  | fuel + 1, c :: rest =>
    if prefixIcase tokLower (c :: rest) then
      rep ++ replaceLitIcaseF tokLower rep fuel (rest.drop (tokLower.length - 1))
    else c :: replaceLitIcaseF tokLower rep fuel rest

/-- Global case-insensitive replacement of a literal token.  Every step of
`replaceLitIcaseF` consumes at least one character, so `l.length + 1` units of
fuel are never exhausted. -/
def replaceLitIcase (tokLower rep l : List Char) : List Char :=
  replaceLitIcaseF tokLower rep (l.length + 1) l

/-- Embeds `decodeHtmlEntities` (the source's fixed sequence of replacement
passes). -/
def decodeHtmlEntities (l : List Char) : List Char :=
  replaceLitIcase "&gt;".data ">".data
    (replaceLitIcase "&lt;".data "<".data
      (replaceLitIcase "&#39;".data "'".data
        (replaceLitIcase "&quot;".data "\"".data
          (replaceLitIcase "&amp;".data "&".data
            (replaceLitIcase "&nbsp;".data " ".data
              (decodeHexEntities (decodeNumericEntities l)))))))

/-- Global replacement of the lazy block `openTok[\s\S]*?closeTok`
(case-insensitive) by one space, as used for style and script elements. -/
def removeLazyBlocksF (openLower closeLower : List Char) : Nat → List Char → List Char
  | 0, l => l
  | _ + 1, [] => []
  | fuel + 1, c :: rest =>
    if prefixIcase openLower (c :: rest) then
      let afterOpen := rest.drop (openLower.length - 1)
      match firstIdxIcase closeLower afterOpen with
      | some i =>
        ' ' :: removeLazyBlocksF openLower closeLower fuel
          (afterOpen.drop (i + closeLower.length))
      | none => c :: removeLazyBlocksF openLower closeLower fuel rest
    else c :: removeLazyBlocksF openLower closeLower fuel rest

/-- Block-removal entry point.  Every step of `removeLazyBlocksF` consumes at
least one character, so `l.length + 1` units of fuel are never exhausted. -/
def removeLazyBlocks (openLower closeLower l : List Char) : List Char :=
  removeLazyBlocksF openLower closeLower (l.length + 1) l

/-- Replacement pass for `/<br\s*\/?>/gi` by one space. -/
def replaceBrTagsF : Nat → List Char → List Char
  | 0, l => l
  | _ + 1, [] => []
  | fuel + 1, c :: rest =>
    (if prefixIcase "<br".data (c :: rest) then
      let afterBr := rest.drop 2
      let k := (afterBr.takeWhile isJsSpace).length
      let afterWs := afterBr.drop k
      let (slashN, afterSlash) :=
        match afterWs with
        | '/' :: r => (1, r)
        | _ => (0, afterWs)
      match afterSlash with
      | '>' :: _ => some (2 + k + slashN + 1)
      | _ => none
     else none).elim
      (c :: replaceBrTagsF fuel rest)
      (fun m => ' ' :: replaceBrTagsF fuel (rest.drop m))

/-- Replacement entry point.  Every step of `replaceBrTagsF` consumes at least
one character, so `l.length + 1` units of fuel are never exhausted. -/
def replaceBrTags (l : List Char) : List Char :=
  replaceBrTagsF (l.length + 1) l

/-- Replacement pass for `/<[^>]+>/g` by one space. -/
def replaceTagRunsF : Nat → List Char → List Char
  | 0, l => l
  | _ + 1, [] => []
  | fuel + 1, c :: rest =>
    if c = '<' then
      let body := rest.takeWhile (fun d => d ≠ '>')
      if 1 ≤ body.length ∧ (rest.dropWhile (fun d => d ≠ '>')) ≠ [] then
        ' ' :: replaceTagRunsF fuel ((rest.dropWhile (fun d => d ≠ '>')).drop 1)
      else c :: replaceTagRunsF fuel rest
    else c :: replaceTagRunsF fuel rest

/-- Replacement entry point.  Every step of `replaceTagRunsF` consumes at least
one character, so `l.length + 1` units of fuel are never exhausted. -/
def replaceTagRuns (l : List Char) : List Char :=
  replaceTagRunsF (l.length + 1) l

/-- Embeds `stripHtml`: drop style and script blocks, turn br tags and other
tags into spaces, decode entities, collapse whitespace, trim. -/
def stripHtml (value : String) : String :=
  String.mk
    (trimWs (collapseWs
      (decodeHtmlEntities
        (replaceTagRuns
          (replaceBrTags
            (removeLazyBlocks "<script".data "</script>".data
              (removeLazyBlocks "<style".data "</style>".data value.data)))))))

/-- Blocks matched by the global lazy pattern `openTok[\s\S]*?closeTok`
(case-insensitive), e.g. every `<table ... </table>` span. -/
def lazyBlocksF (openLower closeLower : List Char) : Nat → List Char → List (List Char)
  | 0, _ => []
  | _ + 1, [] => []
  | fuel + 1, c :: rest =>
    if prefixIcase openLower (c :: rest) then
      let afterOpen := rest.drop (openLower.length - 1)
      match firstIdxIcase closeLower afterOpen with
      | some i =>
        ((c :: rest).take (openLower.length + i + closeLower.length)) ::
          lazyBlocksF openLower closeLower fuel (afterOpen.drop (i + closeLower.length))
      | none => lazyBlocksF openLower closeLower fuel rest
    else lazyBlocksF openLower closeLower fuel rest

/-- Block-scan entry point.  Every step of `lazyBlocksF` consumes at least one
character, so `l.length + 1` units of fuel are never exhausted. -/
def lazyBlocks (openLower closeLower l : List Char) : List (List Char) :=
  lazyBlocksF openLower closeLower (l.length + 1) l

/-- Index of the first position where `</th>` or `</td>` begins
(case-insensitive). -/
def firstCellCloseIdx : List Char → Option Nat
  | [] => none
  | c :: rest =>
    if prefixIcase "</th>".data (c :: rest) || prefixIcase "</td>".data (c :: rest) then
      some 0
    else (firstCellCloseIdx rest).map (· + 1)

/-- Captured cell bodies of `/<(?:th|td)[^>]*>([\s\S]*?)<\/(?:th|td)>/gi`. -/
def cellContentsF : Nat → List Char → List (List Char)
  | 0, _ => []
  | _ + 1, [] => []
  | fuel + 1, c :: rest =>
    (if prefixIcase "<th".data (c :: rest) || prefixIcase "<td".data (c :: rest) then
      let afterName := rest.drop 2
      let attrs := afterName.takeWhile (fun d => d ≠ '>')
      match afterName.dropWhile (fun d => d ≠ '>') with
      | '>' :: content =>
        match firstCellCloseIdx content with
        | some j => some (content.take j, 2 + attrs.length + 1 + j + 5)
        | none => none
      | _ => none
     else none).elim
      (cellContentsF fuel rest)
      (fun p => p.1 :: cellContentsF fuel (rest.drop p.2))

/-- Cell-scan entry point.  Every step of `cellContentsF` consumes at least one
character, so `l.length + 1` units of fuel are never exhausted. -/
def cellContents (l : List Char) : List (List Char) :=
  cellContentsF (l.length + 1) l

/-- Rows of one table block: `<tr ... </tr>` spans, cells stripped of markup,
empty cells and empty rows dropped. -/
def parseHtmlRows (tableHtml : List Char) : List (List String) :=
  (lazyBlocks "<tr".data "</tr>".data tableHtml).filterMap fun rowHtml =>
    let cells :=
      ((cellContents rowHtml).map fun cl =>
        normalizeCellText (stripHtml (String.mk cl))).filter fun s => s ≠ ""
    if cells.length = 0 then none else some cells

/-- Tokens of the HTML keyword-boost test. -/
def HTML_BOOST_TOKENS : List String :=
  ["size", "사이즈", "치수", "cm", "총장",
   "가슴", "어깨", "허리", "소매"]

/-- Best candidate and best score (boost included) over all table blocks. -/
def htmlTablesScan (html : String) : Option SizeTable × Int :=
  (lazyBlocks "<table".data "</table>".data html.data).foldl
    (fun best tableHtml =>
      let rows := parseHtmlRows tableHtml
      if rows.length < 2 then best
      else
        match standardizeSizeTable (rows.headD []) rows.tail with
        | none => best
        | some candidate =>
          let keywordBoost : Int :=
            if HTML_BOOST_TOKENS.any
                (fun tok => strContains (lowerStr (stripHtml (String.mk tableHtml))) tok)
            then 2 else 0
          let score := scoreSizeTableCandidate (some candidate) + keywordBoost
          if best.2 < score then (some candidate, score) else best)
    (none, -1)

/-- Embeds `extractSizeTableFromHtmlTables`: the best boosted candidate, gated
by `bestScore >= 4`. -/
def extractSizeTableFromHtmlTables (html : String) : Option SizeTable :=
  let r := htmlTablesScan html
  if 4 ≤ r.2 then r.1 else none

/-! ### Free-text extractor: pattern building blocks

The free-text patterns use ordered alternation with backtracking; matchers
below return candidate match lengths in the engine's preference order, and
quantifier searches try a further iteration before stopping, as the engine
does. -/

def isAlnumChar (c : Char) : Bool :=
  isDigitChar c ∨ ('a' ≤ c ∧ c ≤ 'z') ∨ ('A' ≤ c ∧ c ≤ 'Z')

/-- Tokens of `SIZE_TABLE_STOP_PATTERN` (case-insensitive contains test used
through `split(...)[0]`). -/
def STOP_TOKENS : List String :=
  ["model", "detail", "fabric", "delivery", "shipping", "material",
   "소재", "세탁", "배송", "상세", "*"]

def firstStopIdx : List Char → Option Nat
  | [] => none
  | c :: rest =>
    if STOP_TOKENS.any (fun t => prefixIcase t.data (c :: rest)) then some 0
    else (firstStopIdx rest).map (· + 1)

/-- Models `s.split(SIZE_TABLE_STOP_PATTERN)[0]`. -/
def splitAtStop (l : List Char) : List Char :=
  match firstStopIdx l with
  | none => l
  | some i => l.take i

def wsRun (l : List Char) : Nat := (l.takeWhile isJsSpace).length

/-- Candidate lengths (in alternation-preference order) of the size-token
alternation `XXS|XS|S|M|L|XL|XXL|XXXL|FREE|ONE ?SIZE|\d{1,4}`
(case-insensitive; digit lengths are listed greedily, longest first). -/
def sizeTokenEnds (l : List Char) : List Nat :=
  let lits : List String :=
    ["xxs", "xs", "s", "m", "l", "xl", "xxl", "xxxl", "free", "one size", "onesize"]
  (lits.filterMap fun t => if prefixIcase t.data l then some t.data.length else none) ++
    (let run := min (digitRun l).1 4
     (List.range run).map fun i => run - i)

/-- Length consumed by `\s*\([^)]{1,30}\)` when it matches. -/
def parenAnnotEnd (l : List Char) : Option Nat :=
  let k := wsRun l
  match l.drop k with
  | '(' :: r =>
    let content := r.takeWhile (fun d => d ≠ ')')
    if 1 ≤ content.length ∧ content.length ≤ 30 ∧
        (r.drop content.length).headD ' ' = ')' then
      some (k + 1 + content.length + 1)
    else none
  | _ => none

/-- Candidate match lengths of one generic size token with its optional
parenthetical annotation and the trailing `(?![A-Za-z0-9])` lookahead. -/
def genTokenEnds (l : List Char) : List Nat :=
  (sizeTokenEnds l).flatMap fun n =>
    let withParen :=
      match parenAnnotEnd (l.drop n) with
      | some m => [n + m]
      | none => []
    (withParen ++ [n]).filter fun t =>
      match l.drop t with
      | [] => true
      | d :: _ => !isAlnumChar d

/-- One `\s*\/\s*token` repetition of the generic header pattern (the
lookbehind before the token always holds after a slash or whitespace). -/
def genRepStep (l : List Char) : Option Nat :=
  let k1 := wsRun l
  match l.drop k1 with
  | '/' :: r2 =>
    let k2 := wsRun r2
    match (genTokenEnds (r2.drop k2)).head? with
    | some n => some (k1 + 1 + k2 + n)
    | none => none
  | _ => none

/-- Greedy repetitions (up to `fuel` of them) of `genRepStep`: total consumed
length and repetition count. -/
def genReps : Nat → List Char → Nat × Nat
  | 0, _ => (0, 0)
  | fuel + 1, l =>
    match genRepStep l with
    | none => (0, 0)
    | some n =>
      let r := genReps fuel (l.drop n)
      (n + r.1, r.2 + 1)

/-- Length of the full generic size-header match starting here (group 1 spans
the whole match), when the position admits one. -/
def genMatchLen (l : List Char) : Option Nat :=
  (genTokenEnds l).findSome? fun n1 =>
    let r := genReps 9 (l.drop n1)
    if 1 ≤ r.2 then some (n1 + r.1) else none

/-- Global scan of the generic size-header pattern: pairs of match span and
remaining text after the match.  The `prev` character carries the
`(?<![A-Za-z0-9])` lookbehind; `fuel` bounds the scan by the text length. -/
def genScan (fuel : Nat) (prev : Option Char) (l : List Char) :
    List (List Char × List Char) :=
  match fuel, l with
  | 0, _ => []
  | _, [] => []
  | fuel + 1, c :: rest =>
    let lookbehindOk :=
      match prev with
      | none => true
      | some p => !isAlnumChar p
    match (if lookbehindOk then genMatchLen (c :: rest) else none) with
    | some n =>
      let span := (c :: rest).take n
      (span, (c :: rest).drop n) ::
        genScan fuel (some (span.getLastD c)) ((c :: rest).drop n)
    | none => genScan fuel (some c) rest

/-- Matched token substrings of the inner token pattern over a span (the
re-scan the source performs on `match[1]`). -/
def innerTokenScan (fuel : Nat) (prev : Option Char) (l : List Char) :
    List (List Char) :=
  match fuel, l with
  | 0, _ => []
  | _, [] => []
  | fuel + 1, c :: rest =>
    let lookbehindOk :=
      match prev with
      | none => true
      | some p => !isAlnumChar p
    match (if lookbehindOk then (genTokenEnds (c :: rest)).head? else none) with
    | some n =>
      let span := (c :: rest).take n
      span :: innerTokenScan fuel (some (span.getLastD c)) ((c :: rest).drop n)
    | none => innerTokenScan fuel (some c) rest

/-- Character class `[A-Za-z가-힣 ]` of the measurement-label captures
(letters, the Hangul block, space). -/
def isMeasLabelChar (c : Char) : Bool :=
  ('a' ≤ c ∧ c ≤ 'z') ∨ ('A' ≤ c ∧ c ≤ 'Z') ∨
    (0x3131 ≤ c.val ∧ c.val ≤ 0xd79d) ∨ c = ' '

/-- Consume `-?\d+(?:\.\d+)?`; deterministic (greedy digits). -/
def plainNumEnd (l : List Char) : Option Nat :=
  let (neg, l') : Nat × List Char :=
    match l with
    | '-' :: rest => (1, rest)
    | _ => (0, l)
  let (n, rest) := digitRun l'
  if n = 0 then none
  else
    match rest with
    | '.' :: fr =>
      let (m, _) := digitRun fr
      if 1 ≤ m then some (neg + n + 1 + m) else some (neg + n)
    | _ => some (neg + n)

/-- Candidate lengths of `-?\d+(?:\.\d+)?(?:\s*(?:cm|mm|in|inch))?`: the
with-unit readings first (in alternation order, so `in` before `inch`), then
the bare number. -/
def numUnitEnds (l : List Char) : List Nat :=
  match plainNumEnd l with
  | none => []
  | some n0 =>
    let r := l.drop n0
    let k := wsRun r
    let units : List String := ["cm", "mm", "in", "inch"]
    (units.filterMap fun u =>
      if prefixIcase u.data (r.drop k) then some (n0 + k + u.length) else none) ++
      [n0]

/-- Backtracking quantifier search: `maxC` iterations at most, at least
`minC`; each iteration consumes one `step` candidate; a further iteration is
preferred over stopping. -/
def repSearch (step : List Char → List Nat) : Nat → Nat → List Char → Option Nat
  | 0, minC, _ => if minC = 0 then some 0 else none
  | maxC + 1, minC, l =>
    ((step l).findSome? fun n =>
      (repSearch step maxC (minC - 1) (l.drop n)).map (fun m => n + m)) <|>
      (if minC = 0 then some 0 else none)

/-- One repetition `\s*(?:\/|\||,)\s*num(unit)?` of the first free-text
measurement pattern: candidate lengths. -/
def measARepCands (l : List Char) : List Nat :=
  let k1 := wsRun l
  match l.drop k1 with
  | c :: r2 =>
    if c = '/' ∨ c = '|' ∨ c = ',' then
      let k2 := wsRun r2
      (numUnitEnds (r2.drop k2)).map fun n => k1 + 1 + k2 + n
    else []
  | [] => []

/-- Consume `\s*[:\-]?\s*` (deterministic). -/
def sepColonDash (l : List Char) : Nat :=
  let k := wsRun l
  match l.drop k with
  | c :: _ =>
    if c = ':' ∨ c = '-' then k + 1 + wsRun (l.drop (k + 1))
    else k
  | [] => k

/-- Match the first free-text measurement pattern at this position: returns
(label substring, group-2 substring, total length).  Group 1 is a greedy run
of label characters (longest first), then an optional colon or dash, then a
number followed by 1 to 10 separator-number repetitions. -/
def measAMatchAt (l : List Char) : Option (List Char × List Char × Nat) :=
  let maxLab := min (l.takeWhile isMeasLabelChar).length 30
  (List.range maxLab).findSome? fun i =>
    let labLen := maxLab - i
    let afterLab := l.drop labLen
    let sepLen := sepColonDash afterLab
    let afterSep := afterLab.drop sepLen
    (numUnitEnds afterSep).findSome? fun n0 =>
      (repSearch measARepCands 10 1 (afterSep.drop n0)).map fun m =>
        let g2Len := n0 + m
        (l.take labLen, afterSep.take g2Len, labLen + sepLen + g2Len)

/-- Global scan with the first measurement pattern: list of (label, group 2)
captures. -/
def measAScan (fuel : Nat) (l : List Char) : List (List Char × List Char) :=
  match fuel, l with
  | 0, _ => []
  | _, [] => []
  | fuel + 1, c :: rest =>
    match measAMatchAt (c :: rest) with
    | some (lab, g2, len) => (lab, g2) :: measAScan fuel ((c :: rest).drop len)
    | none => measAScan fuel rest

/-- All `-?\d+(?:\.\d+)?` matches in a span (the source's global
number-extraction `match`). -/
def plainNumScan (fuel : Nat) (l : List Char) : List (List Char) :=
  match fuel, l with
  | 0, _ => []
  | _, [] => []
  | fuel + 1, c :: rest =>
    match plainNumEnd (c :: rest) with
    | some n => ((c :: rest).take n) :: plainNumScan fuel ((c :: rest).drop n)
    | none => plainNumScan fuel rest

/-! ### Free-text extractor: the four pattern sections -/

/-- Length of a `\[\d{1,3}\]` bracketed size index at the head of `l`,
together with its digit characters. -/
def bracketHead (l : List Char) : Option (List Char × Nat) :=
  match l with
  | '[' :: r =>
    let ds := r.takeWhile isDigitChar
    if 1 ≤ ds.length ∧ ds.length ≤ 3 ∧ (r.drop ds.length).headD ' ' = ']' then
      some (ds, 1 + ds.length + 1)
    else none
  | _ => none

def firstBracketIdx : List Char → Option Nat
  | [] => none
  | c :: rest =>
    if (bracketHead (c :: rest)).isSome then some 0
    else (firstBracketIdx rest).map (· + 1)

/-- Matches of the indexed-row pattern: digit group and the lazily captured
body (ending before the next bracketed index, or at the end of the text). -/
def indexedScan (fuel : Nat) (l : List Char) : List (List Char × List Char) :=
  match fuel, l with
  | 0, _ => []
  | _, [] => []
  | fuel + 1, c :: rest =>
    match bracketHead (c :: rest) with
    | some (ds, bl) =>
      let after := (c :: rest).drop bl
      let k := wsRun after
      let contentStart := after.drop k
      let contentLen :=
        match firstBracketIdx contentStart with
        | some i => i
        | none => contentStart.length
      (ds, contentStart.take contentLen) ::
        indexedScan fuel (contentStart.drop contentLen)
    | none => indexedScan fuel rest

/-- Models `bodySegment.split(/\s*\/\s*/)`. -/
def splitSlashWs (fuel : Nat) (acc : List Char) (l : List Char) : List (List Char) :=
  match fuel, l with
  | 0, _ => [acc.reverse ++ l]
  | _, [] => [acc.reverse]
  | fuel + 1, c :: rest =>
    let k := wsRun (c :: rest)
    match (c :: rest).drop k with
    | '/' :: r2 =>
      let k2 := wsRun r2
      acc.reverse :: splitSlashWs fuel [] (r2.drop k2)
    | _ => splitSlashWs fuel (c :: acc) rest

/-- Anchored token match of the indexed-row segment pattern: returns the label
capture and the number-with-optional-unit capture. -/
def parseSegmentToken (l : List Char) : Option (List Char × List Char) :=
  let maxLab := min (l.takeWhile isMeasLabelChar).length 30
  (List.range maxLab).findSome? fun i =>
    let labLen := maxLab - i
    let afterLab := l.drop labLen
    let sepLen := sepColonDash afterLab
    let afterSep := afterLab.drop sepLen
    if (numUnitEnds afterSep).any (fun n => (afterSep.drop n).isEmpty) then
      some (l.take labLen, afterSep)
    else none

/-- Global replacement of `\s*(?:cm|mm|in|inch)\b` by the empty string
(case-insensitive, no leading boundary). -/
def stripUnitAnnots (fuel : Nat) (l : List Char) : List Char :=
  match fuel, l with
  | 0, _ => l
  | _, [] => []
  | fuel + 1, c :: rest =>
    let k := wsRun (c :: rest)
    let afterWs := (c :: rest).drop k
    let units : List String := ["cm", "mm", "in", "inch"]
    match
      units.findSome? fun u =>
        if prefixIcase u.data afterWs &&
            (match afterWs.drop u.length with
             | [] => true
             | d :: _ => !isWordChar d) then
          some (k + u.length)
        else none
    with
    | some n => stripUnitAnnots fuel ((c :: rest).drop n)
    | none => c :: stripUnitAnnots fuel rest

/-- Insertion-ordered measurement map update (`order.push` + `set`). -/
def addMeasurement (acc : List (String × String)) (label value : String) :
    List (String × String) :=
  if acc.any (fun p => p.1 = label) then
    acc.map fun p => if p.1 = label then (p.1, value) else p
  else acc ++ [(label, value)]

/-- One indexed row: size value plus its ordered measurement map. -/
def buildIndexedRow (ds content : List Char) : Option (String × List (String × String)) :=
  let sizeValue := normalizeSizeLabel (String.mk ds)
  let bodySegment := normalizeCellText (String.mk content)
  if sizeValue = "" ∨ bodySegment = "" then none
  else
    let segmentTokens :=
      ((splitSlashWs (bodySegment.length + 1) [] bodySegment.data).map fun t =>
        normalizeCellText (String.mk t)).filter fun t => t ≠ ""
    let measurements :=
      segmentTokens.foldl
        (fun acc token =>
          match parseSegmentToken token.data with
          | none => acc
          | some (labRaw, g2) =>
            let label := normalizeMeasurementLabel (String.mk labRaw)
            if !isLikelyMeasurementLabelLoose label then acc
            else
              let value :=
                String.mk
                  (stripUnitAnnots ((normalizeCellText (String.mk g2)).length + 1)
                    (normalizeCellText (String.mk g2)).data)
              if value = "" then acc
              else addMeasurement acc label value)
        []
    if measurements.length < 2 then none else some (sizeValue, measurements)

def dedupeKeepFirst (seen : List String) : List String → List String
  | [] => []
  | v :: rest =>
    if v = "" ∨ seen.contains v then dedupeKeepFirst seen rest
    else v :: dedupeKeepFirst (v :: seen) rest

/-- Section (a) of `extractSizeTableFromPlainText`: indexed rows of the form
`[95] 가슴:52/어깨:45`. -/
def plainTextIndexedTable (text : String) : Option SizeTable :=
  let indexedSizeRows :=
    (indexedScan (text.length + 1) text.data).filterMap fun p =>
      buildIndexedRow p.1 p.2
  if indexedSizeRows.length < 2 then none
  else
    let sizeHeaders := uniqValues (indexedSizeRows.map (·.1))
    if sizeHeaders.length < 2 then none
    else
      let measurementLabels :=
        dedupeKeepFirst [] (indexedSizeRows.flatMap fun r => r.2.map (·.1))
      if measurementLabels.length < 2 then none
      else
        let rows := measurementLabels.map fun lab =>
          lab ::
            indexedSizeRows.map fun r => ((r.2.find? fun p => p.1 = lab).map (·.2)).getD ""
        standardizeSizeTable ("size" :: sizeHeaders) rows

def isPureDigits14 (l : List Char) : Bool :=
  let (n, rest) := digitRun l
  1 ≤ n ∧ n ≤ 4 ∧ rest = []

/-- Section (b): the generic run of size tokens followed by measurement
lines; the best-scoring candidate wins. -/
def plainTextGenericTable (text : String) : Option SizeTable :=
  let ms := genScan (text.length + 1) none text.data
  (ms.foldl
    (fun best m =>
      let raw := innerTokenScan (m.1.length + 1) none m.1
      let sizeValues :=
        uniqValues
          ((raw.map fun t => normalizeComparableSizeLabel (String.mk t)).filter
            fun v => isLikelySizeLabel v)
      if sizeValues.length < 2 then best
      else
        let body := splitAtStop m.2
        let rows :=
          (measAScan (body.length + 1) body).filterMap fun cap =>
            let label := normalizeMeasurementLabel (String.mk cap.1)
            if !isLikelyMeasurementLabelLoose label then none
            else
              let values :=
                ((plainNumScan (cap.2.length + 1) cap.2).take sizeValues.length).map
                  String.mk
              if values.length < 2 then none else some (label :: values)
        if rows.length = 0 then best
        else
          match standardizeSizeTable ("size" :: sizeValues) rows with
          | none => best
          | some parsedTable =>
            let alphaSizeCount := sizeValues.countP fun v => sizeAlphaExact v.data
            let numericSizeCount := sizeValues.countP fun v => isPureDigits14 v.data
            let base :=
              scoreSizeTableCandidate (some parsedTable) +
                (sizeValues.length : Int) * 3 + (alphaSizeCount : Int)
            let candidateScore :=
              if alphaSizeCount = 1 ∧ 1 ≤ numericSizeCount then base - 6 else base
            if best.2 < candidateScore then (some parsedTable, candidateScore) else best)
    ((none : Option SizeTable), (-1 : Int))).1

/-- Keyword `size` or `사이즈` (case-insensitive): length matched. -/
def sizeKwLen (l : List Char) : Option Nat :=
  if prefixIcase "size".data l then some 4
  else if "사이즈".data.isPrefixOf l then some 3
  else none

/-- First match of the `size(h1/h2/...)` block pattern: returns the header
list capture and the following (up to 1200 characters) capture. -/
def sizeBlockFind (fuel : Nat) (l : List Char) : Option (List Char × List Char) :=
  match fuel, l with
  | 0, _ => none
  | _, [] => none
  | fuel + 1, c :: rest =>
    (match sizeKwLen (c :: rest) with
     | some n =>
       let afterKw := (c :: rest).drop n
       let k := wsRun afterKw
       match afterKw.drop k with
       | '(' :: r =>
         let content := r.takeWhile (fun d => d ≠ ')')
         if 1 ≤ content.length ∧ (r.drop content.length).headD ' ' = ')' then
           let afterParen := (r.drop content.length).drop 1
           let k2 := wsRun afterParen
           some (content, (afterParen.drop k2).take 1200)
         else none
       | _ => none
     | none => none).elim (sizeBlockFind fuel rest) some

def splitChars (seps : List Char) : List Char → List (List Char) :=
  go []
where
  go (acc : List Char) : List Char → List (List Char)
    | [] => [acc.reverse]
    | c :: rest =>
      if seps.contains c then acc.reverse :: go [] rest
      else go (c :: acc) rest

def isNumDotChar (c : Char) : Bool := isDigitChar c ∨ c = '.'

/-- One `\s*\/\s*[0-9.]+` repetition of the `SIZE: v1/v2` row pattern. -/
def rowBRepStep (l : List Char) : List Nat :=
  let k := wsRun l
  match l.drop k with
  | '/' :: r2 =>
    let k2 := wsRun r2
    let run := (r2.drop k2).takeWhile isNumDotChar
    if 1 ≤ run.length then [k + 1 + k2 + run.length] else []
  | _ => []

/-- Match the `SIZE: v1/v2` row pattern at this position: token capture,
group-2 capture, total length. -/
def rowBMatchAt (l : List Char) : Option (List Char × List Char × Nat) :=
  (sizeTokenEnds l).findSome? fun n =>
    let afterTok := l.drop n
    let k := wsRun afterTok
    match afterTok.drop k with
    | ':' :: r2 =>
      let k2 := wsRun r2
      let run := (r2.drop k2).takeWhile isNumDotChar
      if run.length = 0 then none
      else
        (repSearch rowBRepStep 8 1 ((r2.drop k2).drop run.length)).map fun m =>
          let g2 := (r2.drop k2).take (run.length + m)
          (l.take n, g2, n + k + 1 + k2 + run.length + m)
    | _ => none

def rowBScan (fuel : Nat) (l : List Char) : List (List Char × List Char) :=
  match fuel, l with
  | 0, _ => []
  | _, [] => []
  | fuel + 1, c :: rest =>
    match rowBMatchAt (c :: rest) with
    | some (tok, g2, len) => (tok, g2) :: rowBScan fuel ((c :: rest).drop len)
    | none => rowBScan fuel rest

/-- Section (c): a `size(h1/h2/...)` header block followed by `SIZE: v1/v2`
lines. -/
def plainTextSizeBlockTable (text : String) : Option SizeTable :=
  match sizeBlockFind (text.length + 1) text.data with
  | none => none
  | some (hdrContent, g2) =>
    let measurementHeaders :=
      ((splitChars ['/', '|', ','] hdrContent).map fun t =>
        normalizeCellText (String.mk t)).filter fun t => t ≠ ""
    if measurementHeaders.length = 0 then none
    else
      let body := splitAtStop g2
      let rows :=
        (rowBScan (body.length + 1) body).filterMap fun cap =>
          let sizeValue := normalizeSizeLabel (String.mk cap.1)
          let measurements :=
            ((splitChars ['/'] cap.2).map fun t =>
              normalizeCellText (String.mk t)).filter fun t => t ≠ ""
          if measurements.length < 2 then none
          else some (sizeValue :: measurements)
      if rows.length = 0 then none
      else
        let valueColumnCount := listMax0 (rows.map fun row => row.length - 1)
        if valueColumnCount = 0 then none
        else
          let headers0 := "size" :: measurementHeaders.take valueColumnCount
          let headers :=
            headers0 ++
              (List.range' headers0.length (valueColumnCount + 1 - headers0.length)).map
                fun k => "measure_" ++ toString k
          let normalizedRows := rows.map fun row => row.headD "" :: row.tail.take valueColumnCount
          standardizeSizeTable headers normalizedRows

/-- One token-plus-whitespace repetition of the bare `size <tokens>` header. -/
def hdrTokenStep (l : List Char) : List Nat :=
  (sizeTokenEnds l).map fun n => n + wsRun (l.drop n)

/-- Match the bare `size <tokens>` header pattern at this position: group-1
span and total length. -/
def headerMatchAt (l : List Char) : Option (List Char × Nat) :=
  match sizeKwLen l with
  | none => none
  | some n =>
    let afterKw := l.drop n
    let k := wsRun afterKw
    let afterWs := afterKw.drop k
    let parenCands : List Nat :=
      (match afterWs with
       | '(' :: r =>
         let content := r.takeWhile (fun d => d ≠ ')')
         if (r.drop content.length).headD ' ' = ')' then [1 + content.length + 1]
         else []
       | _ => []) ++ [0]
    parenCands.findSome? fun pl =>
      let afterParen := afterWs.drop pl
      let k2 := wsRun afterParen
      (repSearch hdrTokenStep 10 2 (afterParen.drop k2)).map fun m =>
        ((afterParen.drop k2).take m, n + k + pl + k2 + m)

/-- First match of the bare header pattern anywhere in the text: group-1 span
and the remaining text after the match. -/
def headerFind (fuel : Nat) (l : List Char) : Option (List Char × List Char) :=
  match fuel, l with
  | 0, _ => none
  | _, [] => none
  | fuel + 1, c :: rest =>
    match headerMatchAt (c :: rest) with
    | some (g1, len) => some (g1, (c :: rest).drop len)
    | none => headerFind fuel rest

/-- Token spans of `SIZE_LABEL_TOKEN_PATTERN` (global, no lookarounds). -/
def sizeLabelTokenScan (fuel : Nat) (l : List Char) : List (List Char) :=
  match fuel, l with
  | 0, _ => []
  | _, [] => []
  | fuel + 1, c :: rest =>
    match (sizeTokenEnds (c :: rest)).head? with
    | some n => ((c :: rest).take n) :: sizeLabelTokenScan fuel ((c :: rest).drop n)
    | none => sizeLabelTokenScan fuel rest

/-- Character class `[A-Za-z가-힣]` (no space) of the bare-header measurement
pattern. -/
def isMeasLabelCharB (c : Char) : Bool :=
  ('a' ≤ c ∧ c ≤ 'z') ∨ ('A' ≤ c ∧ c ≤ 'Z') ∨ (0x3131 ≤ c.val ∧ c.val ≤ 0xd79d)

/-- One repetition `\s*(?:\/|\||,)\s*[0-9.]+` or `\s+[0-9.]+` of the
bare-header measurement pattern, in alternation order. -/
def measBRepStep (l : List Char) : List Nat :=
  let k := wsRun l
  let sepCand :=
    match l.drop k with
    | c :: r2 =>
      if c = '/' ∨ c = '|' ∨ c = ',' then
        let k2 := wsRun r2
        let run := (r2.drop k2).takeWhile isNumDotChar
        if 1 ≤ run.length then [k + 1 + k2 + run.length] else []
      else []
    | [] => []
  let wsCand :=
    if 1 ≤ k then
      let run := (l.drop k).takeWhile isNumDotChar
      if 1 ≤ run.length then [k + run.length] else []
    else []
  sepCand ++ wsCand

/-- Match the bare-header measurement pattern at this position: label capture,
group-2 capture, total length. -/
def measBMatchAt (l : List Char) : Option (List Char × List Char × Nat) :=
  let maxLab := min (l.takeWhile isMeasLabelCharB).length 20
  (List.range maxLab).findSome? fun i =>
    let labLen := maxLab - i
    let afterLab := l.drop labLen
    let sepLen := sepColonDash afterLab
    let afterSep := afterLab.drop sepLen
    let run := afterSep.takeWhile isNumDotChar
    if run.length = 0 then none
    else
      (repSearch measBRepStep 10 1 (afterSep.drop run.length)).map fun m =>
        (l.take labLen, afterSep.take (run.length + m), labLen + sepLen + run.length + m)

def measBScan (fuel : Nat) (l : List Char) : List (List Char × List Char) :=
  match fuel, l with
  | 0, _ => []
  | _, [] => []
  | fuel + 1, c :: rest =>
    match measBMatchAt (c :: rest) with
    | some (lab, g2, len) => (lab, g2) :: measBScan fuel ((c :: rest).drop len)
    | none => measBScan fuel rest

/-- Section (d): a bare `size <tokens>` header followed by loosely formatted
measurement lines. -/
def plainTextBareHeaderTable (text : String) : Option SizeTable :=
  match headerFind (text.length + 1) text.data with
  | none => none
  | some (g1, after) =>
    let sizeValues :=
      (sizeLabelTokenScan (g1.length + 1) g1).map fun t => normalizeSizeLabel (String.mk t)
    if (uniqValues sizeValues).length < 2 then none
    else
      let body := splitAtStop after
      let rows :=
        (measBScan (body.length + 1) body).filterMap fun cap =>
          let label := normalizeMeasurementLabel (String.mk cap.1)
          if !isLikelyMeasurementLabel label then none
          else
            let values :=
              ((plainNumScan (cap.2.length + 1) cap.2).take sizeValues.length).map String.mk
            if values.length < 2 then none else some (label :: values)
      if rows.length = 0 then none
      else standardizeSizeTable ("size" :: sizeValues) rows

/-- Embeds `extractSizeTableFromPlainText`: the four pattern sections in
priority order. -/
def extractSizeTableFromPlainText (value : String) : Option SizeTable :=
  let text := normalizeCellText value
  if text = "" then none
  else
    match plainTextIndexedTable text with
    | some t => some t
    | none =>
    match plainTextGenericTable text with
    | some t => some t
    | none =>
    match plainTextSizeBlockTable text with
    | some t => some t
    | none => plainTextBareHeaderTable text

/-! ### Final page-level candidate selection -/

/-- The candidates `extractSizeTableFromPage` considers, with their bonuses,
in consideration order: HTML tables (+2), JSON data (+0), each text block
(+1), the stripped page text (+1). -/
def pageCandidates (html : String) (textBlocks : List String) (jsonData : Option Json) :
    List (Option SizeTable × Int) :=
  [(extractSizeTableFromHtmlTables html, 2), (extractSizeTableFromJsonData jsonData, 0)] ++
    textBlocks.map (fun b => (extractSizeTableFromPlainText (stripHtml b), 1)) ++
    [(extractSizeTableFromPlainText (stripHtml html), 1)]

/-- The `consider` reducer of `extractSizeTableFromPage`: skip null tables and
negative raw scores; keep a candidate when its bonus-weighted score strictly
exceeds the best so far. -/
def considerStep (best p : Option SizeTable × Int) : Option SizeTable × Int :=
  match p.1 with
  | none => best
  | some t =>
    let score := scoreSizeTableCandidate (some t)
    if score < 0 then best
    else if best.2 < score + p.2 then (some t, score + p.2) else best

/-- Folds the `consider` reducer over the candidate list, starting from the
null candidate with score `-1`. -/
def considerFold (cands : List (Option SizeTable × Int)) : Option SizeTable × Int :=
  cands.foldl considerStep (none, -1)

/-- Embeds `extractSizeTableFromPage`. -/
def extractSizeTableFromPage (html : String) (textBlocks : List String)
    (jsonData : Option Json) : Option SizeTable :=
  (considerFold (pageCandidates html textBlocks jsonData)).1

/-! ### Image Dimension Sniffer

Byte buffers are `List Nat`; the `Except Unit` layer distinguishes a thrown
exception (`.error`, raised by the out-of-range `Buffer.readUInt*` calls) from
a returned value, so that "never throws" is a provable statement. -/

structure Dim where
  width : Nat
  height : Nat
deriving DecidableEq, Repr

/-- Out-of-range `Buffer.readUInt16BE` throws; in range it is big-endian. -/
def readU16BE (b : List Nat) (i : Nat) : Except Unit Nat :=
  if i + 2 ≤ b.length then .ok (b.getD i 0 * 256 + b.getD (i + 1) 0)
  else .error ()

def readU32BE (b : List Nat) (i : Nat) : Except Unit Nat :=
  if i + 4 ≤ b.length then
    .ok (b.getD i 0 * 16777216 + b.getD (i + 1) 0 * 65536 +
      b.getD (i + 2) 0 * 256 + b.getD (i + 3) 0)
  else .error ()

def readU32LE (b : List Nat) (i : Nat) : Except Unit Nat :=
  if i + 4 ≤ b.length then
    .ok (b.getD (i + 3) 0 * 16777216 + b.getD (i + 2) 0 * 65536 +
      b.getD (i + 1) 0 * 256 + b.getD i 0)
  else .error ()

def readU16LE (b : List Nat) (i : Nat) : Except Unit Nat :=
  if i + 2 ≤ b.length then .ok (b.getD (i + 1) 0 * 256 + b.getD i 0)
  else .error ()

/-- `Buffer.readUIntLE(offset, 3)`. -/
def readU24LE (b : List Nat) (i : Nat) : Except Unit Nat :=
  if i + 3 ≤ b.length then
    .ok (b.getD (i + 2) 0 * 65536 + b.getD (i + 1) 0 * 256 + b.getD i 0)
  else .error ()

def pngSignature : List Nat := [0x89, 0x50, 0x4e, 0x47, 0x0d, 0x0a, 0x1a, 0x0a]

/-- Embeds `readPngDimensions`: 8-byte signature check, then big-endian
32-bit width and height at offsets 16 and 20. -/
def readPngDimensions (b : List Nat) : Except Unit (Option Dim) :=
  if b.length < 24 then .ok none
  else if b.take 8 ≠ pngSignature then .ok none
  else do
    let w ← readU32BE b 16
    let h ← readU32BE b 20
    if w = 0 ∨ h = 0 then pure none else pure (some ⟨w, h⟩)

/-- Marker-scanning loop of `readJpegDimensions`.  The offset strictly
increases every iteration, so a fuel of `b.length` is never exhausted. -/
def jpegLoop (b : List Nat) : Nat → Nat → Except Unit (Option Dim)
  | 0, _ => .ok none
  | fuel + 1, offset =>
    if ¬(offset + 8 < b.length) then .ok none
    else if b.getD offset 0 ≠ 0xff then jpegLoop b fuel (offset + 1)
    else
      let marker := b.getD (offset + 1) 0
      if marker = 0xda ∨ marker = 0xd9 then .ok none
      else if b.length < offset + 4 then .ok none
      else do
        let len ← readU16BE b (offset + 2)
        if len < 2 then pure none
        else
          let isSof :=
            0xc0 ≤ marker ∧ marker ≤ 0xcf ∧ marker ≠ 0xc4 ∧ marker ≠ 0xc8 ∧ marker ≠ 0xcc
          if isSof ∧ offset + 9 < b.length then do
            let h ← readU16BE b (offset + 5)
            let w ← readU16BE b (offset + 7)
            if 0 < w ∧ 0 < h then pure (some ⟨w, h⟩)
            else jpegLoop b fuel (offset + 2 + len)
          else jpegLoop b fuel (offset + 2 + len)

/-- Embeds `readJpegDimensions`. -/
def readJpegDimensions (b : List Nat) : Except Unit (Option Dim) :=
  if b.length < 4 then .ok none
  else if ¬(b.getD 0 0 = 0xff ∧ b.getD 1 0 = 0xd8) then .ok none
  else jpegLoop b b.length 2

/-- Models `buffer.toString("ascii", from, to)` (Node masks the high bit). -/
def asciiSlice (b : List Nat) (i j : Nat) : List Nat :=
  ((b.drop i).take (j - i)).map (· % 128)

def strBytes (s : String) : List Nat := s.data.map Char.toNat

/-- Chunk-walking loop of `readWebpDimensions` (each chunk advances the
offset by at least 8, so a fuel of `b.length` is never exhausted). -/
def webpLoop (b : List Nat) : Nat → Nat → Except Unit (Option Dim)
  | 0, _ => .ok none
  | fuel + 1, offset =>
    if ¬(offset + 8 ≤ b.length) then .ok none
    else do
      let chunkType := asciiSlice b offset (offset + 4)
      let chunkSize ← readU32LE b (offset + 4)
      let chunkDataOffset := offset + 8
      if b.length < chunkDataOffset + chunkSize then pure none
      else do
        let step1 : Option Dim ←
          (if chunkType = strBytes "VP8X" ∧ 10 ≤ chunkSize then do
            let w24 ← readU24LE b (chunkDataOffset + 4)
            let h24 ← readU24LE b (chunkDataOffset + 7)
            pure (if 0 < 1 + w24 ∧ 0 < 1 + h24 then some ⟨1 + w24, 1 + h24⟩ else none)
          else pure none)
        match step1 with
        | some d => pure (some d)
        | none => do
          let step2 : Option Dim ←
            (if chunkType = strBytes "VP8 " ∧ 10 ≤ chunkSize then
              let startCodeOffset := chunkDataOffset + 3
              if startCodeOffset + 5 < b.length ∧ b.getD startCodeOffset 0 = 0x9d ∧
                  b.getD (startCodeOffset + 1) 0 = 0x01 ∧
                  b.getD (startCodeOffset + 2) 0 = 0x2a then do
                let wRaw ← readU16LE b (startCodeOffset + 3)
                let hRaw ← readU16LE b (startCodeOffset + 5)
                let w := wRaw % 16384
                let h := hRaw % 16384
                pure (if 0 < w ∧ 0 < h then some ⟨w, h⟩ else none)
              else pure none
            else pure none)
          match step2 with
          | some d => pure (some d)
          | none =>
            let step3 : Option Dim :=
              if chunkType = strBytes "VP8L" ∧ 5 ≤ chunkSize then
                let b0 := b.getD (chunkDataOffset + 1) 0
                let b1 := b.getD (chunkDataOffset + 2) 0
                let b2 := b.getD (chunkDataOffset + 3) 0
                let b3 := b.getD (chunkDataOffset + 4) 0
                let w := 1 + ((b1 % 64) * 256 + b0)
                let h := 1 + ((b3 % 16) * 1024 + (b2 % 256) * 4 + (b1 / 64 % 4))
                if 0 < w ∧ 0 < h then some ⟨w, h⟩ else none
              else none
            match step3 with
            | some d => pure (some d)
            | none => webpLoop b fuel (offset + 8 + chunkSize + chunkSize % 2)

/-- Embeds `readWebpDimensions`. -/
def readWebpDimensions (b : List Nat) : Except Unit (Option Dim) :=
  if b.length < 30 then .ok none
  else if asciiSlice b 0 4 ≠ strBytes "RIFF" then .ok none
  else if asciiSlice b 8 12 ≠ strBytes "WEBP" then .ok none
  else webpLoop b b.length 12

/-- Embeds `getImageDimensions`: dispatch on the normalized mime type, with
fallback sniffing for mismatched content types. -/
def getImageDimensions (b : List Nat) (mimeType : String) : Except Unit (Option Dim) :=
  let m := lowerStr mimeType
  if m = "image/png" then readPngDimensions b
  else if m = "image/jpeg" ∨ m = "image/jpg" then readJpegDimensions b
  else if m = "image/webp" then readWebpDimensions b
  else do
    let p ← readPngDimensions b
    match p with
    | some d => pure (some d)
    | none => do
      let j ← readJpegDimensions b
      match j with
      | some d => pure (some d)
      | none => readWebpDimensions b

/-! ### Specification-side predicates for the `isLikelySizeLabel` claim

`specSizeLabelClaimed` formalizes the claim's wording as stated;
`specSizeLabelAmended` is the amended wording.  Both reuse the branch
matchers, read off the claim's category descriptions. -/

/-- The claim's alpha-size clause: `XXS..XXXL`, `FREE`, `ONE SIZE`, each
optionally annotated with a parenthetical numeric or descriptor. -/
def claimedAlphaSize (l : List Char) : Bool :=
  (["XXS", "XS", "S", "M", "L", "XL", "XXL", "XXXL", "FREE",
    "ONE SIZE", "ONESIZE"] : List String).any fun t =>
    t.data.isPrefixOf l &&
      (let r := l.drop t.data.length
       r.isEmpty || parenNumTail r || parenDescTail r)

/-- The claim's numeric clause: a purely numeric string (decimal numeral,
optionally signed) whose value lies in [0, 400]. -/
def claimedNumericSize (l : List Char) : Bool :=
  match splitNumeric l with
  | none => false
  | some (neg, ip, fp) =>
    let v := ratOfParts neg ip fp
    v.nonneg && v.leNat 400

/-- The claim's mixed alpha-numeric clause (combos such as `M-95`), i.e. the
two mixed-combo shapes. -/
def claimedMixedCombo (l : List Char) : Bool :=
  sizeAlphaNumMix l || sizeNumAlphaMix l

/-- Modelled from the claim's wording as stated: alpha sizes (optionally
annotated), purely numeric sizes with value in [0, 400], region-prefixed
sizes, waist/inseam combos, and mixed alpha-numeric combos; every other
string is not a size label. -/
def specSizeLabelClaimed (value : String) : Bool :=
  let text := normalizeSizeLabel value
  if text = "" then false
  else
    let l := text.data
    claimedAlphaSize l || claimedNumericSize l || sizeRegion l ||
      sizeWaistCombo l || claimedMixedCombo l

/-- The amended numeric-with-annotation clause: a 1-3-digit numeric size
annotated with a parenthetical alpha size, numeric range, or descriptor. -/
def amendedNumericAnnotated (l : List Char) : Bool :=
  sizeNumAlphaParen l || sizeNumRangeParen l || sizeNumDescParen l

/-- The amended alpha clause: only `XXS..XXXL` take annotations; `FREE` and
`ONE SIZE` must be bare. -/
def amendedAlphaSize (l : List Char) : Bool :=
  sizeAlphaExact l || sizeAlphaNumParen l || sizeAlphaDescParen l

/-- Modelled from the amended claim: as claimed, but parenthetical
annotations extend only over `XXS..XXXL` and over 1-3-digit numeric sizes
(with no value bound on the annotated numeric form), and the plain numeric
clause is limited to at most 4 integer digits. -/
def specSizeLabelAmended (value : String) : Bool :=
  let text := normalizeSizeLabel value
  if text = "" then false
  else
    let l := text.data
    amendedAlphaSize l || amendedNumericAnnotated l || sizeNumericPlain l ||
      sizeRegion l || sizeWaistCombo l || claimedMixedCombo l

/-! ### Concrete fixtures used by the claim theorems -/

/-- A page with one size-like table (raw candidate score 4, no keyword
boost). -/
def htmlFixtureA : String :=
  "<div><table><tr><th>항목</th><th>X1</th><th>X2</th></tr><tr><td>길이수치</td><td>10</td><td>20</td></tr><tr><td>기타</td><td>30</td><td>40</td></tr></table></div>"

/-- A page whose only table candidate scores 3 (below the minimum-score
gate). -/
def htmlFixtureB : String :=
  "<table><tr><th>항목</th><th>X1</th><th>X2</th></tr><tr><td>길이수치</td><td>10</td><td>20</td></tr></table>"

/-- A JSON payload whose `headers`/`rows` candidate scores 5. -/
def jsonFixtureA : Json :=
  .obj [("headers", .arr [.str "항목", .str "Y1", .str "Y2"]),
    ("rows", .arr [.arr [.str "길이수치", .num 10, .num 20],
      .arr [.str "기타", .num 30, .num 40],
      .arr [.str "잡값", .num 50, .num 60]])]

/-- A JSON payload whose best candidate scores 3 (below the gate). -/
def jsonFixtureB : Json :=
  .obj [("headers", .arr [.str "항목", .str "Y1", .str "Y2"]),
    ("rows", .arr [.arr [.str "길이수치", .num 10, .num 20]])]

/-- The big-endian 32-bit integer at offset `i` (with absent bytes read as 0),
as the PNG sniffer reads it. -/
def beU32 (b : List Nat) (i : Nat) : Nat :=
  b.getD i 0 * 16777216 + b.getD (i + 1) 0 * 65536 + b.getD (i + 2) 0 * 256 +
    b.getD (i + 3) 0

/-- A minimal 24-byte PNG buffer: signature, 8 filler bytes, then width 13 and
height 37 as big-endian 32-bit integers at offsets 16 and 20. -/
def pngFixture : List Nat :=
  [0x89, 0x50, 0x4e, 0x47, 0x0d, 0x0a, 0x1a, 0x0a,
   0, 0, 0, 0, 0, 0, 0, 0,
   0, 0, 0, 13, 0, 0, 0, 37]

/-- A minimal JPEG buffer: SOI, then an SOF0 marker with height 37 and
width 13. -/
def jpegFixture : List Nat :=
  [0xff, 0xd8, 0xff, 0xc0, 0x00, 0x11, 0x08, 0x00, 0x25, 0x00, 0x0d, 0x00]

/-- A minimal 30-byte WEBP buffer: RIFF/WEBP header and one VP8X chunk whose
24-bit fields encode width 13 and height 37 (stored minus one). -/
def webpFixture : List Nat :=
  [82, 73, 70, 70, 22, 0, 0, 0, 87, 69, 66, 80,
   86, 80, 56, 88, 10, 0, 0, 0,
   0, 0, 0, 0, 12, 0, 0, 36, 0, 0]

/-! ### Proof-support predicates -/

/-- Cell-normalized form of the raw input, i.e. the `headers`/`rows` pair that
`standardizeSizeTable` builds before choosing an orientation. -/
def entryTable (headers0 : List String) (rows0 : List (List String)) : SizeTable :=
  ⟨headers0.map normalizeCellText, rows0.map fun r => r.map normalizeCellText⟩

/-- Structural well-formedness of collapsed text: every whitespace character
is a plain space and is not followed by another whitespace character. -/
def midOk : List Char → Bool
  | [] => true
  | [c] => !isJsSpace c || c = ' '
  | c :: d :: rest => (!isJsSpace c || (c = ' ' && !isJsSpace d)) && midOk (d :: rest)

/-- Holds when the list is empty or starts with a non-whitespace character. -/
def headNonWs (l : List Char) : Bool :=
  match l with
  | [] => true
  | c :: _ => !isJsSpace c

/-- Characterizes the outputs of `normalizeCellText`: internal whitespace is
collapsed to single spaces and neither end is whitespace. -/
def normedB (l : List Char) : Bool :=
  midOk l && headNonWs l && headNonWs l.reverse

/-! ### Supporting lemmas: characters and cell normalization -/

theorem char_toNat_ofNat (n : Nat) (h : n < 55296) : (Char.ofNat n).toNat = n := by
  have hv : n.isValidChar := Or.inl h
  simp [Char.ofNat, hv, Char.ofNatAux, Char.toNat, UInt32.toNat]

theorem char_eq_iff_toNat {a b : Char} : a = b ↔ a.toNat = b.toNat := by
  constructor
  · intro h; rw [h]
  · intro h
    exact Char.eq_of_val_eq (UInt32.ext h)

theorem upChar_toNat (c : Char) :
    (upChar c).toNat = if 97 ≤ c.toNat ∧ c.toNat ≤ 122 then c.toNat - 32 else c.toNat := by
  unfold upChar
  split
  · next h => exact char_toNat_ofNat _ (by omega)
  · rfl

theorem isJsSpace_upChar (c : Char) : isJsSpace (upChar c) = isJsSpace c := by
  simp only [isJsSpace, upChar_toNat]
  split
  · next h =>
    simp only [decide_eq_decide]
    omega
  · rfl

theorem upChar_space_iff (c : Char) : (upChar c = ' ') ↔ (c = ' ') := by
  rw [char_eq_iff_toNat, char_eq_iff_toNat, upChar_toNat]
  have : (' ').toNat = 32 := by decide
  rw [this]
  split <;> omega

theorem upChar_idem (c : Char) : upChar (upChar c) = upChar c := by
  rw [char_eq_iff_toNat, upChar_toNat, upChar_toNat]
  by_cases h : 97 ≤ c.toNat ∧ c.toNat ≤ 122 <;> simp [h] <;> omega

theorem midOk_tail {c : Char} {l : List Char} (h : midOk (c :: l) = true) :
    midOk l = true := by
  cases l with
  | nil => rfl
  | cons d rest =>
    simp only [midOk, Bool.and_eq_true] at h
    exact h.2

/-- The head of `collapseWsAux true l` is never whitespace. -/
theorem collapseAux_true_head :
    ∀ l : List Char, collapseWsAux true l = [] ∨
      ∃ c rest, collapseWsAux true l = c :: rest ∧ isJsSpace c = false := by
  intro l
  induction l with
  | nil => exact Or.inl rfl
  | cons c rest ih =>
    by_cases h : isJsSpace c = true
    · simpa [collapseWsAux, h] using ih
    · right
      refine ⟨c, collapseWsAux false rest, ?_, by simpa using h⟩
      simp [collapseWsAux, h]

/-- When the head is not whitespace (or the list is empty), the two flag
states of `collapseWsAux` agree. -/
theorem collapseAux_flag_eq {c : Char} {rest : List Char}
    (h : isJsSpace c = false) :
    collapseWsAux true (c :: rest) = collapseWsAux false (c :: rest) := by
  simp [collapseWsAux, h]

/-- Output of the collapse pass is `midOk`. -/
theorem midOk_collapseAux : ∀ (l : List Char) (flag : Bool),
    midOk (collapseWsAux flag l) = true := by
  intro l
  induction l with
  | nil => intro flag; rfl
  | cons c rest ih =>
    intro flag
    by_cases h : isJsSpace c = true
    · cases flag with
      | true => simpa [collapseWsAux, h] using ih true
      | false =>
        simp only [collapseWsAux, h, if_true]
        rcases collapseAux_true_head rest with h0 | ⟨d, tail, heq, hd⟩
        · simp [h0, midOk]
        · rw [heq]
          have : midOk (d :: tail) = true := by rw [← heq]; exact ih true
          simp [midOk, hd, this]
    · have h' : isJsSpace c = false := by simpa using h
      simp only [collapseWsAux, h', Bool.false_eq_true, if_false]
      rcases hrec : collapseWsAux false rest with _ | ⟨d, tail⟩
      · simp [midOk, h']
      · have hm : midOk (d :: tail) = true := by rw [← hrec]; exact ih false
        simp [midOk, h', hm]

theorem midOk_collapseWs (l : List Char) : midOk (collapseWs l) = true :=
  midOk_collapseAux l false

/-- A `midOk` list is a fixed point of the collapse pass. -/
theorem collapseWs_of_midOk : ∀ l : List Char, midOk l = true → collapseWs l = l := by
  intro l
  induction l with
  | nil => intro _; rfl
  | cons c rest ih =>
    intro h
    cases rest with
    | nil =>
      simp only [midOk, Bool.or_eq_true] at h
      rcases h with h | h
      · have hc' : isJsSpace c = false := by simpa using h
        simp [collapseWs, collapseWsAux, hc']
      · have : c = ' ' := by simpa using h
        subst this
        simp [collapseWs, collapseWsAux, isJsSpace]
    | cons d tail =>
      simp only [midOk, Bool.and_eq_true, Bool.or_eq_true] at h
      obtain ⟨h1, h2⟩ := h
      have hrest : collapseWs (d :: tail) = d :: tail := by
        apply ih
        simpa [midOk] using h2
      rcases h1 with hc | hc
      · have hc' : isJsSpace c = false := by simpa using hc
        simpa [collapseWs, collapseWsAux, hc'] using hrest
      · obtain ⟨hce, hd⟩ := by simpa using hc
        subst hce
        have hd' : isJsSpace d = false := by simpa using hd
        have hsp : isJsSpace ' ' = true := by decide
        have htail : collapseWsAux false tail = tail := by
          simpa [collapseWs, collapseWsAux, hd'] using hrest
        simp [collapseWs, collapseWsAux, hsp, hd', htail]

theorem midOk_suffix {l₁ l₂ : List Char} (h : l₁ <:+ l₂) :
    midOk l₂ = true → midOk l₁ = true := by
  obtain ⟨t, rfl⟩ := h
  induction t with
  | nil => exact fun hm => by simpa using hm
  | cons c t ih => exact fun hm => ih (midOk_tail (by simpa using hm))

theorem midOk_append_left : ∀ {l₁ : List Char} (l₂ : List Char),
    midOk (l₁ ++ l₂) = true → midOk l₁ = true := by
  intro l₁
  induction l₁ with
  | nil => intro _ _; rfl
  | cons c rest ih =>
    intro l₂ h
    cases rest with
    | nil =>
      cases l₂ with
      | nil => simpa using h
      | cons d t =>
        have h1 : isJsSpace c = false ∨ (c = ' ' ∧ isJsSpace d = false) := by
          have hh := h
          simp only [List.cons_append, List.nil_append, midOk, Bool.and_eq_true,
            Bool.or_eq_true, Bool.not_eq_true', decide_eq_true_eq] at hh
          exact hh.1
        show midOk [c] = true
        simp only [midOk, Bool.or_eq_true, Bool.not_eq_true', decide_eq_true_eq]
        rcases h1 with h1 | h1
        · exact Or.inl h1
        · exact Or.inr h1.1
    | cons d t =>
      have h' : midOk ((d :: t) ++ l₂) = true := midOk_tail (by simpa using h)
      have h2 := ih l₂ h'
      have h1 : isJsSpace c = false ∨ (c = ' ' ∧ isJsSpace d = false) := by
        have hh := h
        simp only [List.cons_append, midOk, Bool.and_eq_true, Bool.or_eq_true,
          Bool.not_eq_true', decide_eq_true_eq] at hh
        exact hh.1
      simp only [midOk, Bool.and_eq_true, Bool.or_eq_true, Bool.not_eq_true',
        decide_eq_true_eq]
      exact ⟨h1, h2⟩

theorem dropWhile_headNonWs (l : List Char) :
    headNonWs (l.dropWhile isJsSpace) = true := by
  induction l with
  | nil => rfl
  | cons c rest ih =>
    by_cases h : isJsSpace c = true
    · simpa [List.dropWhile, h] using ih
    · simp [List.dropWhile, h, headNonWs]

theorem headNonWs_append_left {l₁ l₂ : List Char} (h : headNonWs (l₁ ++ l₂) = true) :
    headNonWs l₁ = true := by
  cases l₁ with
  | nil => rfl
  | cons c rest => simpa [headNonWs] using h

theorem drop_takeWhile_eq_dropWhile (p : Char → Bool) (l : List Char) :
    l.drop (l.takeWhile p).length = l.dropWhile p := by
  have h := List.takeWhile_append_dropWhile p l
  calc l.drop (l.takeWhile p).length
      = ((l.takeWhile p) ++ (l.dropWhile p)).drop (l.takeWhile p).length := by rw [h]
    _ = l.dropWhile p := List.drop_left _ _

theorem normedB_trimWs (l : List Char) (hm : midOk l = true) :
    normedB (trimWs l) = true := by
  have hXmid : midOk (l.dropWhile isJsSpace) = true :=
    midOk_suffix (List.dropWhile_suffix _) hm
  have hTZ : (l.dropWhile isJsSpace).reverse =
      (l.dropWhile isJsSpace).reverse.takeWhile isJsSpace ++
        (l.dropWhile isJsSpace).reverse.dropWhile isJsSpace :=
    (List.takeWhile_append_dropWhile _ _).symm
  have hsplit : l.dropWhile isJsSpace =
      ((l.dropWhile isJsSpace).reverse.dropWhile isJsSpace).reverse ++
        ((l.dropWhile isJsSpace).reverse.takeWhile isJsSpace).reverse := by
    conv_lhs => rw [← List.reverse_reverse (l.dropWhile isJsSpace), hTZ]
    rw [List.reverse_append]
  have hmid2 : midOk (((l.dropWhile isJsSpace).reverse.dropWhile isJsSpace).reverse ++
      ((l.dropWhile isJsSpace).reverse.takeWhile isJsSpace).reverse) = true := by
    rw [← hsplit]; exact hXmid
  have hhead2 : headNonWs (((l.dropWhile isJsSpace).reverse.dropWhile isJsSpace).reverse ++
      ((l.dropWhile isJsSpace).reverse.takeWhile isJsSpace).reverse) = true := by
    rw [← hsplit]; exact dropWhile_headNonWs l
  simp only [trimWs, normedB, Bool.and_eq_true]
  refine ⟨⟨midOk_append_left _ hmid2, headNonWs_append_left hhead2⟩, ?_⟩
  rw [List.reverse_reverse]
  exact dropWhile_headNonWs _

theorem trimWs_of_normedB (l : List Char) (h : normedB l = true) : trimWs l = l := by
  simp only [normedB, Bool.and_eq_true] at h
  obtain ⟨⟨hmid, hhead⟩, hlast⟩ := h
  have h1 : l.dropWhile isJsSpace = l := by
    cases l with
    | nil => rfl
    | cons c rest =>
      have hc : isJsSpace c = false := by simpa [headNonWs] using hhead
      simp [List.dropWhile, hc]
  rw [trimWs, h1]
  have h2 : l.reverse.dropWhile isJsSpace = l.reverse := by
    cases hrev : l.reverse with
    | nil => rfl
    | cons c rest =>
      have hc : isJsSpace c = false := by
        have := hlast
        rw [hrev] at this
        simpa [headNonWs] using this
      simp [List.dropWhile, hc]
  rw [h2, List.reverse_reverse]

theorem normedB_nct (s : String) : normedB (normalizeCellText s).data = true :=
  normedB_trimWs (collapseWs s.data) (midOk_collapseWs s.data)

theorem nct_of_normedB (s : String) (h : normedB s.data = true) :
    normalizeCellText s = s := by
  have hmid : midOk s.data = true := by
    simp only [normedB, Bool.and_eq_true] at h
    exact h.1.1
  have h1 : collapseWs s.data = s.data := collapseWs_of_midOk _ hmid
  have h2 : trimWs s.data = s.data := trimWs_of_normedB _ (by
    simp only [normedB, Bool.and_eq_true] at h ⊢
    exact h)
  show String.mk (trimWs (collapseWs s.data)) = s
  rw [h1, h2]

theorem nct_idem (s : String) :
    normalizeCellText (normalizeCellText s) = normalizeCellText s :=
  nct_of_normedB _ (normedB_nct s)

theorem midOk_map_upChar (l : List Char) (h : midOk l = true) :
    midOk (l.map upChar) = true := by
  induction l with
  | nil => rfl
  | cons c rest ih =>
    cases rest with
    | nil =>
      simp only [List.map_cons, List.map_nil, midOk, Bool.or_eq_true,
        Bool.not_eq_true', decide_eq_true_eq] at h ⊢
      rcases h with h | h
      · exact Or.inl (by rw [isJsSpace_upChar]; exact h)
      · exact Or.inr ((upChar_space_iff c).mpr h)
    | cons d tail =>
      have htail := ih (midOk_tail h)
      simp only [midOk, Bool.and_eq_true, Bool.or_eq_true, Bool.not_eq_true',
        decide_eq_true_eq] at h
      obtain ⟨h1, _⟩ := h
      simp only [List.map_cons, midOk, Bool.and_eq_true, Bool.or_eq_true,
        Bool.not_eq_true', decide_eq_true_eq]
      constructor
      · rcases h1 with h1 | ⟨hc, hd⟩
        · exact Or.inl (by rw [isJsSpace_upChar]; exact h1)
        · exact Or.inr ⟨(upChar_space_iff c).mpr hc, by rw [isJsSpace_upChar]; exact hd⟩
      · simpa [List.map_cons] using htail

theorem headNonWs_map_upChar (l : List Char) :
    headNonWs (l.map upChar) = headNonWs l := by
  cases l with
  | nil => rfl
  | cons c rest => simp [headNonWs, isJsSpace_upChar]

theorem normedB_map_upChar (l : List Char) (h : normedB l = true) :
    normedB (l.map upChar) = true := by
  simp only [normedB, Bool.and_eq_true] at h ⊢
  obtain ⟨⟨h1, h2⟩, h3⟩ := h
  have hrev : (l.map upChar).reverse = l.reverse.map upChar := by
    simp [List.map_reverse]
  refine ⟨⟨midOk_map_upChar l h1, ?_⟩, ?_⟩
  · rw [headNonWs_map_upChar]; exact h2
  · rw [hrev, headNonWs_map_upChar]; exact h3

theorem nct_fix_upperStr (s : String) (h : normedB s.data = true) :
    normalizeCellText (upperStr s) = upperStr s :=
  nct_of_normedB _ (normedB_map_upChar s.data h)

theorem nct_fix_normalizeSizeLabel (v : String) :
    normalizeCellText (normalizeSizeLabel v) = normalizeSizeLabel v :=
  nct_fix_upperStr _ (normedB_nct v)

theorem map_upChar_idem (l : List Char) :
    (l.map upChar).map upChar = l.map upChar := by
  induction l with
  | nil => rfl
  | cons c rest ih => simp [upChar_idem, ih]

theorem normalizeSizeLabel_idem (v : String) :
    normalizeSizeLabel (normalizeSizeLabel v) = normalizeSizeLabel v := by
  unfold normalizeSizeLabel
  rw [nct_fix_upperStr _ (normedB_nct v)]
  show String.mk (((normalizeCellText v).data.map upChar).map upChar)
      = String.mk ((normalizeCellText v).data.map upChar)
  rw [map_upChar_idem]

theorem headNonWs_reverse_suffix {s l : List Char} (h : s <:+ l)
    (hl : headNonWs l.reverse = true) : headNonWs s.reverse = true := by
  obtain ⟨t, rfl⟩ := h
  rw [List.reverse_append] at hl
  cases hrev : s.reverse with
  | nil => rfl
  | cons c rest =>
    rw [hrev] at hl
    simpa [headNonWs, List.cons_append] using hl

theorem drop_tok_ws_headNonWs (l : List Char) (m : Nat) :
    headNonWs (l.drop (m + ((l.drop m).takeWhile isJsSpace).length)) = true := by
  rw [← List.drop_drop, drop_takeWhile_eq_dropWhile]
  exact dropWhile_headNonWs _

theorem orElse_eq_some_cases {α : Type} {o : Option α} {f : Unit → Option α} {n : α}
    (h : (o.orElse f) = some n) : o = some n ∨ f () = some n := by
  cases o with
  | none => right; simpa [Option.orElse] using h
  | some a => left; simpa [Option.orElse] using h

theorem tryUnitTok_some_form {l tok : List Char} {n : Nat}
    (h : tryUnitTok l tok = some n) :
    ∃ m, n = m + ((l.drop m).takeWhile isJsSpace).length := by
  unfold tryUnitTok at h
  split at h
  · simp only [] at h
    split at h
    · exact absurd h (by simp)
    · exact ⟨tok.length, (Option.some.inj h).symm⟩
  · exact absurd h (by simp)

theorem unitPrefixLen_some_form {l : List Char} {n : Nat}
    (h : unitPrefixLen l = some n) :
    ∃ m, n = m + ((l.drop m).takeWhile isJsSpace).length := by
  unfold unitPrefixLen at h
  rcases orElse_eq_some_cases h with h | h
  · exact tryUnitTok_some_form h
  rcases orElse_eq_some_cases h with h | h
  · exact tryUnitTok_some_form h
  rcases orElse_eq_some_cases h with h | h
  · exact tryUnitTok_some_form h
  exact tryUnitTok_some_form h

theorem normedB_stripUnitPrefix (s : String) (h : normedB s.data = true) :
    normedB (stripUnitPrefix s).data = true := by
  unfold stripUnitPrefix
  cases hu : unitPrefixLen s.data with
  | none => exact h
  | some n =>
    obtain ⟨m, rfl⟩ := unitPrefixLen_some_form hu
    show normedB (s.data.drop (m + ((s.data.drop m).takeWhile isJsSpace).length)) = true
    simp only [normedB, Bool.and_eq_true] at h ⊢
    refine ⟨⟨?_, ?_⟩, ?_⟩
    · exact midOk_suffix (List.drop_suffix _ _) h.1.1
    · exact drop_tok_ws_headNonWs s.data m
    · exact headNonWs_reverse_suffix (List.drop_suffix _ _) h.2

theorem nct_fix_stripUnit (s : String) (h : normedB s.data = true) :
    normalizeCellText (stripUnitPrefix s) = stripUnitPrefix s :=
  nct_of_normedB _ (normedB_stripUnitPrefix s h)

theorem aliasMapLookup_mem {k c : String} (h : aliasMapLookup k = some c) :
    c ∈ aliasMapValues := by
  unfold aliasMapLookup at h
  obtain ⟨p, hp, hpc⟩ := Option.map_eq_some'.mp h
  rw [← hpc]
  exact List.mem_map_of_mem _ (List.mem_of_find?_eq_some hp)

theorem aliasValues_nct : ∀ c ∈ aliasMapValues, normalizeCellText c = c := by decide

theorem infer_cases (k : String) :
    inferMeasurementLabelFromAliasKey k = "" ∨
      inferMeasurementLabelFromAliasKey k ∈
        ["어깨", "가슴", "소매", "허리", "엉덩이", "허벅지", "밑위", "밑단", "인심"] := by
  unfold inferMeasurementLabelFromAliasKey
  split_ifs <;> simp

theorem infer_values_nct :
    ∀ c ∈ ["어깨", "가슴", "소매", "허리", "엉덩이", "허벅지", "밑위", "밑단", "인심"],
      normalizeCellText c = c := by decide

set_option maxHeartbeats 1000000 in
theorem nct_fix_normalizeMeasurementLabel (value : String) :
    normalizeCellText (normalizeMeasurementLabel value) =
      normalizeMeasurementLabel value := by
  have hnormed := normedB_nct value
  simp only [normalizeMeasurementLabel]
  split
  · rfl
  · split
    · decide
    · split
      · next canonical hc =>
        exact aliasValues_nct canonical (aliasMapLookup_mem hc)
      · split
        · exact nct_fix_stripUnit _ hnormed
        · next hne =>
          rcases infer_cases (normalizeAliasKey (stripUnitPrefix (normalizeCellText value))) with
            h0 | hmem
          · exact absurd h0 hne
          · exact infer_values_nct _ hmem

theorem makeRect_length {rows : List (List String)} {width : Nat} :
    ∀ r ∈ makeRectangularRows rows width, r.length = width := by
  intro r hr
  simp only [makeRectangularRows, List.mem_map] at hr
  obtain ⟨row, _, rfl⟩ := hr
  simp only [List.length_take, List.length_append, List.length_replicate, List.length_map]
  omega

theorem extractFirstTotal_mem : ∀ {rows : List (List String)} {t : List String}
    {rest : List (List String)}, extractFirstTotal rows = some (t, rest) →
    t ∈ rows ∧ ∀ r ∈ rest, r ∈ rows := by
  intro rows
  induction rows with
  | nil => intro t rest h; simp [extractFirstTotal] at h
  | cons r rs ih =>
    intro t rest h
    simp only [extractFirstTotal] at h
    split at h
    · rw [Option.some.injEq, Prod.mk.injEq] at h
      obtain ⟨rfl, rfl⟩ := h
      exact ⟨List.mem_cons_self _ _, fun x hx => List.mem_cons_of_mem _ hx⟩
    · split at h
      · exact absurd h (by simp)
      · next t0 rest0 heq =>
        rw [Option.some.injEq, Prod.mk.injEq] at h
        obtain ⟨rfl, rfl⟩ := h
        obtain ⟨h1, h2⟩ := ih heq
        refine ⟨List.mem_cons_of_mem _ h1, ?_⟩
        intro x hx
        rcases List.mem_cons.mp hx with rfl | hx
        · exact List.mem_cons_self _ _
        · exact List.mem_cons_of_mem _ (h2 x hx)

theorem sortMeasurementRows_mem {rows : List (List String)} :
    ∀ x ∈ sortMeasurementRows rows, x ∈ rows := by
  intro x hx
  unfold sortMeasurementRows at hx
  split at hx
  · exact hx
  · next r rs =>
    split at hx
    · exact hx
    · split at hx
      · exact hx
      · next t rest heq =>
        obtain ⟨h1, h2⟩ := extractFirstTotal_mem heq
        rcases List.mem_cons.mp hx with rfl | hx
        · exact List.mem_cons_of_mem _ h1
        · rcases List.mem_cons.mp hx with rfl | hx
          · exact List.mem_cons_self _ _
          · exact List.mem_cons_of_mem _ (h2 x hx)

theorem finalizeHeaders_length {l : List String} (h : l ≠ []) :
    (finalizeHeaders l).length = l.length := by
  cases l with
  | nil => exact absurd rfl h
  | cons a t => simp [finalizeHeaders]

theorem pad_take_length (l : List String) (w : Nat) :
    ((l ++ List.replicate (w - l.length) "").take w).length = w := by
  simp only [List.length_take, List.length_append, List.length_replicate]
  omega

theorem setRowLabel_length {r : List String} (h : r ≠ []) :
    (setRowLabel r).length = r.length := by
  cases r with
  | nil => exact absurd rfl h
  | cons a t => simp [setRowLabel]

theorem finalizeStd_rect {sel : SizeTable} {out : SizeTable}
    (h : finalizeStd sel = some out) :
    ∀ r ∈ out.rows, r.length = out.headers.length := by
  unfold finalizeStd at h
  simp only [] at h
  split at h
  · exact absurd h (by simp)
  · next hw =>
    rw [Option.some.injEq] at h
    subst h
    intro r hr
    have hw1 : 1 ≤ listMax0 (sel.headers.length :: sel.rows.map List.length) := by
      omega
    have hmem := sortMeasurementRows_mem _ hr
    simp only [List.mem_map] at hmem
    obtain ⟨r0, hr0, rfl⟩ := hmem
    have hr0len : r0.length = listMax0 (sel.headers.length :: sel.rows.map List.length) :=
      makeRect_length r0 hr0
    have hr0ne : r0 ≠ [] := by
      intro hnil
      rw [hnil] at hr0len
      simp at hr0len
      omega
    have hhdr : ((sel.headers ++
        List.replicate (listMax0 (sel.headers.length :: sel.rows.map List.length) -
          sel.headers.length) "").take
            (listMax0 (sel.headers.length :: sel.rows.map List.length))).length =
        listMax0 (sel.headers.length :: sel.rows.map List.length) :=
      pad_take_length _ _
    have hhdrne : ((sel.headers ++
        List.replicate (listMax0 (sel.headers.length :: sel.rows.map List.length) -
          sel.headers.length) "").take
            (listMax0 (sel.headers.length :: sel.rows.map List.length))) ≠ [] := by
      intro hnil
      rw [hnil] at hhdr
      simp at hhdr
      omega
    show (setRowLabel r0).length = (finalizeHeaders _).length
    rw [setRowLabel_length hr0ne, finalizeHeaders_length hhdrne, hhdr, hr0len]

theorem standardize_rect {headers0 : List String} {rows0 : List (List String)}
    {out : SizeTable} (h : standardizeSizeTable headers0 rows0 = some out) :
    ∀ r ∈ out.rows, r.length = out.headers.length := by
  unfold standardizeSizeTable at h
  simp only [] at h
  split at h
  · exact absurd h (by simp)
  · exact finalizeStd_rect h

theorem extractFirstTotal_total : ∀ {rows : List (List String)} {t : List String}
    {rest : List (List String)}, extractFirstTotal rows = some (t, rest) →
    isTotalLengthRow t = true := by
  intro rows
  induction rows with
  | nil => intro t rest h; simp [extractFirstTotal] at h
  | cons r rs ih =>
    intro t rest h
    simp only [extractFirstTotal] at h
    split at h
    · next hr =>
      rw [Option.some.injEq, Prod.mk.injEq] at h
      obtain ⟨rfl, rfl⟩ := h
      exact hr
    · split at h
      · exact absurd h (by simp)
      · next t0 rest0 heq =>
        rw [Option.some.injEq, Prod.mk.injEq] at h
        obtain ⟨rfl, rfl⟩ := h
        exact ih heq

theorem sortMeasurementRows_idem (rows : List (List String)) :
    sortMeasurementRows (sortMeasurementRows rows) = sortMeasurementRows rows := by
  cases rows with
  | nil => rfl
  | cons r rs =>
    by_cases hr : isTotalLengthRow r = true
    · have h1 : sortMeasurementRows (r :: rs) = r :: rs := by
        simp [sortMeasurementRows, hr]
      rw [h1, h1]
    · cases hext : extractFirstTotal rs with
      | none =>
        have h1 : sortMeasurementRows (r :: rs) = r :: rs := by
          simp [sortMeasurementRows, hr, hext]
        rw [h1, h1]
      | some p =>
        obtain ⟨t, rest⟩ := p
        have ht := extractFirstTotal_total hext
        have h1 : sortMeasurementRows (r :: rs) = t :: r :: rest := by
          simp [sortMeasurementRows, hr, hext]
        rw [h1]
        simp [sortMeasurementRows, ht]

theorem map_self {α : Type} (f : α → α) (l : List α) (h : ∀ x ∈ l, f x = x) :
    l.map f = l := by
  induction l with
  | nil => rfl
  | cons a t ih =>
    rw [List.map_cons, h a (List.mem_cons_self _ _), ih (fun x hx => h x (List.mem_cons_of_mem _ hx))]

theorem foldl_max_of_le (l : List Nat) (a : Nat) (h : ∀ x ∈ l, x ≤ a) :
    l.foldl max a = a := by
  induction l generalizing a with
  | nil => rfl
  | cons x t ih =>
    rw [List.foldl_cons]
    have hx : max a x = a := Nat.max_eq_left (h x (List.mem_cons_self _ _))
    rw [hx]
    exact ih a (fun y hy => h y (List.mem_cons_of_mem _ hy))

theorem listMax0_all_eq {w : Nat} {l : List Nat} (h : ∀ x ∈ l, x = w) :
    listMax0 (w :: l) = w := by
  unfold listMax0
  rw [List.foldl_cons, Nat.max_comm, Nat.max_zero]
  exact foldl_max_of_le l w (fun x hx => le_of_eq (h x hx))

theorem map_normalizeSizeLabel_idem (l : List String) :
    (l.map normalizeSizeLabel).map normalizeSizeLabel = l.map normalizeSizeLabel := by
  apply map_self
  intro x hx
  obtain ⟨y, _, rfl⟩ := List.mem_map.mp hx
  exact normalizeSizeLabel_idem y

theorem finalizeHeaders_idem (l : List String) :
    finalizeHeaders (finalizeHeaders l) = finalizeHeaders l := by
  cases l with
  | nil => rfl
  | cons a t =>
    show finalizeHeaders (ITEM_LABEL :: t.map normalizeSizeLabel) = _
    rw [finalizeHeaders, finalizeHeaders, map_normalizeSizeLabel_idem]

theorem makeRect_cells {rows : List (List String)} {width : Nat} :
    ∀ r ∈ makeRectangularRows rows width, ∀ x ∈ r, normalizeCellText x = x := by
  intro r hr x hx
  simp only [makeRectangularRows, List.mem_map] at hr
  obtain ⟨row, _, rfl⟩ := hr
  have hx' := List.mem_of_mem_take hx
  rcases List.mem_append.mp hx' with hx'' | hx''
  · obtain ⟨y, _, rfl⟩ := List.mem_map.mp hx''
    exact nct_idem y
  · rw [List.eq_of_mem_replicate hx'']
    rfl

theorem finalizeHeaders_cells (l : List String) :
    ∀ x ∈ finalizeHeaders l, normalizeCellText x = x := by
  intro x hx
  cases l with
  | nil =>
    simp only [finalizeHeaders, List.mem_singleton] at hx
    subst hx
    decide
  | cons a t =>
    simp only [finalizeHeaders, List.mem_cons] at hx
    rcases hx with rfl | hx
    · decide
    · obtain ⟨y, _, rfl⟩ := List.mem_map.mp hx
      exact nct_fix_normalizeSizeLabel y

theorem setRowLabel_cells {r0 : List String}
    (hcell : ∀ x ∈ r0, normalizeCellText x = x) :
    (setRowLabel r0).map normalizeCellText = setRowLabel r0 := by
  cases r0 with
  | nil =>
    show [normalizeCellText (normalizeMeasurementLabel "")] = [normalizeMeasurementLabel ""]
    rw [nct_fix_normalizeMeasurementLabel]
  | cons c cs =>
    show normalizeCellText (normalizeMeasurementLabel c) :: cs.map normalizeCellText =
      normalizeMeasurementLabel c :: cs
    rw [nct_fix_normalizeMeasurementLabel,
      map_self _ _ (fun x hx => hcell x (List.mem_cons_of_mem _ hx))]

theorem finalizeHeaders_pos (l : List String) : 1 ≤ (finalizeHeaders l).length := by
  cases l with
  | nil => decide
  | cons a t => simp [finalizeHeaders]

theorem finalizeStd_inv {sel u : SizeTable} (h : finalizeStd sel = some u) :
    finalizeHeaders u.headers = u.headers ∧
    u.headers.map normalizeCellText = u.headers ∧
    (∀ row ∈ u.rows, row ≠ [] ∧ row.map normalizeCellText = row) ∧
    1 ≤ u.headers.length ∧
    sortMeasurementRows u.rows = u.rows := by
  unfold finalizeStd at h
  simp only [] at h
  split at h
  · exact absurd h (by simp)
  · next hw =>
    rw [Option.some.injEq] at h
    subst h
    refine ⟨finalizeHeaders_idem _, ?_, ?_, finalizeHeaders_pos _, ?_⟩
    · exact map_self _ _ (finalizeHeaders_cells _)
    · intro row hrow
      have hmem := sortMeasurementRows_mem _ hrow
      simp only [List.mem_map] at hmem
      obtain ⟨r0, hr0, rfl⟩ := hmem
      have hr0len := makeRect_length r0 hr0
      have hr0cells := makeRect_cells r0 hr0
      constructor
      · cases r0 with
        | nil => simp [setRowLabel]
        | cons c cs => simp [setRowLabel]
      · exact setRowLabel_cells hr0cells
    · exact sortMeasurementRows_idem _

theorem finalizeStd_self {u : SizeTable}
    (hfh : finalizeHeaders u.headers = u.headers)
    (hcells : ∀ row ∈ u.rows, row ≠ [] ∧ row.map normalizeCellText = row)
    (hlen : 1 ≤ u.headers.length)
    (hrect : ∀ r ∈ u.rows, r.length = u.headers.length)
    (hsort : sortMeasurementRows u.rows = u.rows)
    (hlabels : ∀ row ∈ u.rows, normalizeMeasurementLabel (row.headD "") = row.headD "") :
    finalizeStd u = some u := by
  have hw : listMax0 (u.headers.length :: u.rows.map List.length) = u.headers.length := by
    apply listMax0_all_eq
    intro x hx
    obtain ⟨r, hr, rfl⟩ := List.mem_map.mp hx
    exact hrect r hr
  unfold finalizeStd
  simp only [hw]
  rw [if_neg (by omega)]
  have hpad : u.headers ++ List.replicate (u.headers.length - u.headers.length) "" =
      u.headers := by
    rw [Nat.sub_self, List.replicate_zero, List.append_nil]
  rw [hpad, List.take_length]
  have hrows : makeRectangularRows u.rows u.headers.length = u.rows := by
    apply map_self
    intro row hrow
    have hlenr := hrect row hrow
    have hcr := (hcells row hrow).2
    simp only []
    rw [hcr, ← hlenr, Nat.sub_self, List.replicate_zero, List.append_nil, List.take_length]
  rw [hrows]
  have hset : u.rows.map setRowLabel = u.rows := by
    apply map_self
    intro row hrow
    obtain ⟨hne, _⟩ := hcells row hrow
    cases row with
    | nil => exact absurd rfl hne
    | cons c cs =>
      show normalizeMeasurementLabel c :: cs = c :: cs
      have := hlabels _ hrow
      simp only [List.headD_cons] at this
      rw [this]
  rw [hset, hsort, hfh]

theorem standardize_second_pass {headers0 : List String} {rows0 : List (List String)}
    {u : SizeTable} (h : standardizeSizeTable headers0 rows0 = some u)
    (h1 : ∀ row ∈ u.rows, normalizeMeasurementLabel (row.headD "") = row.headD "")
    (h2 : ¬ tableOrientationScore u < tableOrientationScore (transposeTable u)) :
    standardizeSizeTable u.headers u.rows = some u := by
  have hsel : ∃ sel, finalizeStd sel = some u := by
    unfold standardizeSizeTable at h
    simp only [] at h
    split at h
    · exact absurd h (by simp)
    · exact ⟨_, h⟩
  obtain ⟨sel, hstd⟩ := hsel
  obtain ⟨hfh, hH, hcells, hlen, hsort⟩ := finalizeStd_inv hstd
  have hrect := finalizeStd_rect hstd
  have hR : u.rows.map (fun r => r.map normalizeCellText) = u.rows :=
    map_self _ _ (fun row hrow => (hcells row hrow).2)
  unfold standardizeSizeTable
  simp only [hH, hR]
  rw [if_neg (by
    intro hcon
    rw [List.length_eq_zero] at hcon
    have := hlen
    rw [hcon.1] at this
    simp at this)]
  have hu : (⟨u.headers, u.rows⟩ : SizeTable) = u := rfl
  rw [hu, if_neg h2]
  exact finalizeStd_self hfh hcells hlen hrect hsort h1

theorem standardize_unfold (headers0 : List String) (rows0 : List (List String))
    (hne : ¬(headers0.length = 0 ∧ rows0.length = 0)) :
    standardizeSizeTable headers0 rows0 =
      finalizeStd
        (if tableOrientationScore (entryTable headers0 rows0) <
            tableOrientationScore (transposeTable (entryTable headers0 rows0))
          then transposeTable (entryTable headers0 rows0)
          else entryTable headers0 rows0) := by
  unfold standardizeSizeTable entryTable
  simp only []
  rw [if_neg (by simpa using hne)]

/-! ### Claims C1, C2, C3 -/

/-- C1: `standardizeSizeTable` computes the orientation score of the cell-normalized
input and of its transpose, keeps the transpose exactly when it scores strictly
higher (so ties favor the as-given orientation), and on the two concrete examples
produces the size-in-columns table `항목/95/100/105` with the single `가슴` row. -/
theorem c1_standardize_orientation :
    (∀ (headers0 : List String) (rows0 : List (List String)),
      ¬(headers0.length = 0 ∧ rows0.length = 0) →
      standardizeSizeTable headers0 rows0 =
        finalizeStd
          (if tableOrientationScore (entryTable headers0 rows0) <
              tableOrientationScore (transposeTable (entryTable headers0 rows0))
            then transposeTable (entryTable headers0 rows0)
            else entryTable headers0 rows0)) ∧
    standardizeSizeTable ["항목", "95", "100", "105"] [["가슴", "52", "54", "56"]] =
      some ⟨["항목", "95", "100", "105"], [["가슴", "52", "54", "56"]]⟩ ∧
    standardizeSizeTable ["", "가슴"] [["95", "52"], ["100", "54"], ["105", "56"]] =
      some ⟨["항목", "95", "100", "105"], [["가슴", "52", "54", "56"]]⟩ :=
  ⟨standardize_unfold, by decide, by decide⟩

theorem c1_standardize_orientation_witness :
    (¬((["항목", "95", "100", "105"] : List String).length = 0 ∧
        ([["가슴", "52", "54", "56"]] : List (List String)).length = 0)) ∧
    standardizeSizeTable ["항목", "95", "100", "105"] [["가슴", "52", "54", "56"]] =
      finalizeStd
        (if tableOrientationScore
              (entryTable ["항목", "95", "100", "105"] [["가슴", "52", "54", "56"]]) <
            tableOrientationScore (transposeTable
              (entryTable ["항목", "95", "100", "105"] [["가슴", "52", "54", "56"]]))
          then transposeTable
            (entryTable ["항목", "95", "100", "105"] [["가슴", "52", "54", "56"]])
          else entryTable ["항목", "95", "100", "105"] [["가슴", "52", "54", "56"]]) :=
  ⟨by decide, c1_standardize_orientation.1 _ _ (by decide)⟩

/-- C2 counterexample: `standardizeSizeTable` is not idempotent.  On the input with
row label `"cm cm 가슴"` the first pass emits the row label `"cm 가슴"` (only one
unit prefix is stripped per pass), and feeding that output back in relabels the
row to `"가슴"`, a different table. -/
theorem c2_counterexample :
    (standardizeSizeTable ["h", "95", "100", "105"] [["cm cm 가슴", "1", "2", "3"]] =
      some ⟨["항목", "95", "100", "105"], [["cm 가슴", "1", "2", "3"]]⟩) ∧
    (standardizeSizeTable ["항목", "95", "100", "105"] [["cm 가슴", "1", "2", "3"]] =
      some ⟨["항목", "95", "100", "105"], [["가슴", "1", "2", "3"]]⟩) ∧
    (⟨["항목", "95", "100", "105"], [["가슴", "1", "2", "3"]]⟩ : SizeTable) ≠
      ⟨["항목", "95", "100", "105"], [["cm 가슴", "1", "2", "3"]]⟩ :=
  ⟨by decide, by decide, by decide⟩

/-- C2 (amended): one `standardizeSizeTable` pass is a fixed point provided the
produced row labels are themselves fixed points of `normalizeMeasurementLabel`
and the transpose of the output does not outscore the output as given; without
those two conditions a second pass can relabel rows or flip the orientation. -/
theorem c2_standardize_idempotent_amended :
    ∀ (headers0 : List String) (rows0 : List (List String)) (u : SizeTable),
      standardizeSizeTable headers0 rows0 = some u →
      (∀ row ∈ u.rows, normalizeMeasurementLabel (row.headD "") = row.headD "") →
      ¬tableOrientationScore u < tableOrientationScore (transposeTable u) →
      standardizeSizeTable u.headers u.rows = some u :=
  fun _ _ _ h h1 h2 => standardize_second_pass h h1 h2

theorem c2_standardize_idempotent_amended_witness :
    (∀ row ∈ ([["가슴", "52", "54", "56"]] : List (List String)),
        normalizeMeasurementLabel (row.headD "") = row.headD "") ∧
    standardizeSizeTable ["항목", "95", "100", "105"] [["가슴", "52", "54", "56"]] =
      some ⟨["항목", "95", "100", "105"], [["가슴", "52", "54", "56"]]⟩ :=
  ⟨by decide,
    c2_standardize_idempotent_amended ["항목", "95", "100", "105"]
      [["가슴", "52", "54", "56"]]
      ⟨["항목", "95", "100", "105"], [["가슴", "52", "54", "56"]]⟩
      (by decide) (by decide) (by decide)⟩

/-- C3: every table returned by `standardizeSizeTable` is rectangular — each row
has exactly as many cells as the returned header list. -/
theorem c3_standardize_rectangular :
    ∀ (headers0 : List String) (rows0 : List (List String)) (u : SizeTable),
      standardizeSizeTable headers0 rows0 = some u →
      ∀ r ∈ u.rows, r.length = u.headers.length :=
  fun _ _ _ h => standardize_rect h

theorem c3_standardize_rectangular_witness :
    (["가슴", "52", "54", "56"] : List String).length =
      (⟨["항목", "95", "100", "105"],
        [["가슴", "52", "54", "56"]]⟩ : SizeTable).headers.length :=
  c3_standardize_rectangular ["", "가슴"] [["95", "52"], ["100", "54"], ["105", "56"]]
    ⟨["항목", "95", "100", "105"], [["가슴", "52", "54", "56"]]⟩ (by decide)
    ["가슴", "52", "54", "56"] (by decide)

theorem sum_filter_pos (rows : List (List String)) (f : List String → Nat)
    (hf : f [] = 0) :
    ((rows.filter fun r => 0 < r.length).map f).sum = (rows.map f).sum := by
  induction rows with
  | nil => rfl
  | cons r rs ih =>
    by_cases hr : 0 < r.length
    · simp [List.filter_cons, hr, ih]
    · have hnil : r = [] := by
        cases r with
        | nil => rfl
        | cons a t => simp at hr
      subst hnil
      simp only [List.filter_cons, List.map_cons, List.sum_cons, hf]
      simpa using ih

theorem countNumericCells_eq (t : SizeTable) :
    ((t.rows.filter fun r => 0 < r.length).map fun row =>
      row.tail.countP fun cell => (parseNumericCellValue cell).isSome).sum =
    (numericCellValuesOf t).length := by
  rw [numericCellValuesOf, List.length_flatten, List.map_map,
    sum_filter_pos _ _ (by rfl)]
  apply congrArg List.sum
  apply List.map_congr_left
  intro row _
  simp only [Function.comp]
  exact (List.length_filterMap_eq_countP _ _).symm

theorem hasUsable_numeric_ge {t : SizeTable} (h : hasUsableSizeTableShape t = true) :
    max 2 (t.headers.length - 1) ≤
      ((t.rows.filter fun r => 0 < r.length).map fun row =>
        row.tail.countP fun cell => (parseNumericCellValue cell).isSome).sum := by
  unfold hasUsableSizeTableShape at h
  simp only [] at h
  split at h
  · exact absurd h (by simp)
  · split at h
    · exact absurd h (by simp)
    · split at h
      · exact absurd h (by simp)
      · split at h
        · exact absurd h (by simp)
        · next h4 => omega

theorem unusable_of_small {t : SizeTable}
    (h : t.headers.length < 3 ∨ t.rows.length < 1) :
    hasUsableSizeTableShape t = false := by
  unfold hasUsableSizeTableShape
  rw [if_pos h]

theorem score_neg_of_unusable {t : SizeTable}
    (h : hasUsableSizeTableShape t = false) :
    scoreSizeTableCandidate (some t) = -1 := by
  simp only [scoreSizeTableCandidate]
  rw [h]
  simp

theorem score_neg_of_no_hint {t : SizeTable}
    (h : ∀ row ∈ t.rows, isLikelyMeasurementKey (row.headD "") = false) :
    scoreSizeTableCandidate (some t) = -1 := by
  by_cases hu : hasUsableSizeTableShape t = true
  · have hc : (t.rows.countP fun row => isLikelyMeasurementKey (row.headD "")) = 0 :=
      List.countP_eq_zero.mpr (fun a ha => by rw [h a ha]; simp)
    simp only [scoreSizeTableCandidate]
    rw [hu]
    simp only [Bool.not_true, Bool.false_eq_true, if_false]
    rw [hc, if_pos rfl]
  · exact score_neg_of_unusable (by simpa using hu)

theorem score_neg_of_implausible {t : SizeTable}
    (h : 2 * (numericCellValuesOf t).countP (fun v => v.pos && v.leNat 400) <
      (numericCellValuesOf t).length) :
    scoreSizeTableCandidate (some t) = -1 := by
  by_cases hu : hasUsableSizeTableShape t = true
  · have hge := hasUsable_numeric_ge hu
    rw [countNumericCells_eq] at hge
    have h2 : 2 ≤ (numericCellValuesOf t).length :=
      le_trans (le_max_left _ _) hge
    by_cases hh : (t.rows.countP fun row => isLikelyMeasurementKey (row.headD "")) = 0
    · simp only [scoreSizeTableCandidate]
      rw [hu]
      simp only [Bool.not_true, Bool.false_eq_true, if_false]
      rw [hh, if_pos rfl]
    · simp only [scoreSizeTableCandidate]
      rw [hu]
      simp only [Bool.not_true, Bool.false_eq_true, if_false]
      rw [if_neg hh, if_pos ⟨h2, h⟩]
  · exact score_neg_of_unusable (by simpa using hu)

/-! ### Claim C4 -/

/-- C4: `scoreSizeTableCandidate` returns `-1` for every table with fewer than 3
headers or fewer than 1 row, for every table none of whose rows starts with a
recognizable measurement label, and for every table in which fewer than half of
the numeric-looking value cells lie in the plausible 0–400 range; in particular
the `a/b` × `x/9999` table scores negative. -/
theorem c4_score_rejections :
    (∀ t : SizeTable, t.headers.length < 3 ∨ t.rows.length < 1 →
      scoreSizeTableCandidate (some t) = -1) ∧
    (∀ t : SizeTable,
      (∀ row ∈ t.rows, isLikelyMeasurementKey (row.headD "") = false) →
      scoreSizeTableCandidate (some t) = -1) ∧
    (∀ t : SizeTable,
      2 * (numericCellValuesOf t).countP (fun v => v.pos && v.leNat 400) <
        (numericCellValuesOf t).length →
      scoreSizeTableCandidate (some t) = -1) ∧
    scoreSizeTableCandidate (some ⟨["a", "b"], [["x", "9999"]]⟩) < 0 :=
  ⟨fun _ h => score_neg_of_unusable (unusable_of_small h),
   fun _ h => score_neg_of_no_hint h,
   fun _ h => score_neg_of_implausible h,
   by decide⟩

theorem c4_score_rejections_witness :
    scoreSizeTableCandidate (some ⟨["a", "b"], [["x", "9999"]]⟩) = -1 ∧
    scoreSizeTableCandidate (some ⟨["a", "b", "c"], [["x", "1", "2"]]⟩) = -1 ∧
    scoreSizeTableCandidate (some ⟨["항목", "a", "b"], [["가슴", "9999", "8888"]]⟩) = -1 :=
  ⟨c4_score_rejections.1 ⟨["a", "b"], [["x", "9999"]]⟩ (by decide),
   c4_score_rejections.2.1 ⟨["a", "b", "c"], [["x", "1", "2"]]⟩ (by decide),
   c4_score_rejections.2.2.1 ⟨["항목", "a", "b"], [["가슴", "9999", "8888"]]⟩ (by decide)⟩

/-! ### Claim C5 -/

theorem align_wholesale {t : SizeTable} {opts : List String}
    (h1 : hasUsableSizeTableShape t = true)
    (h2 : ¬(alignNormalizedOptions opts).length < 2)
    (h3 : ¬(alignNormalizedHeaders t).length < 2)
    (h4 : areSequentialNumericSizeHeaders (alignNormalizedHeaders t) = true)
    (h5 : (alignNormalizedOptions opts).length = (alignNormalizedHeaders t).length) :
    alignAndValidateSizeTableByOptionLabels t opts =
      some ⟨headOrItem t.headers :: alignNormalizedOptions opts, t.rows⟩ := by
  simp only [alignAndValidateSizeTableByOptionLabels]
  rw [h1]
  simp only [Bool.not_true, Bool.false_eq_true, if_false]
  rw [if_neg h2, if_neg h3, if_pos (by rw [h4, h5]; simp)]

theorem align_below_threshold {t : SizeTable} {opts : List String}
    (h1 : hasUsableSizeTableShape t = true)
    (h2 : ¬(alignNormalizedOptions opts).length < 2)
    (h3 : ¬(alignNormalizedHeaders t).length < 2)
    (h4 : (areSequentialNumericSizeHeaders (alignNormalizedHeaders t) &&
      (alignNormalizedOptions opts).length = (alignNormalizedHeaders t).length) = false)
    (h5 : ¬2 ≤ ((alignNormalizedOptions opts).filter fun v =>
      (idxLookup
        (buildOptionIndex (alignNormalizedOptions opts) (alignNormalizedHeaders t))
        v).isSome).length)
    (h6 : (alignNormalizedHeaders t).countP
        (fun h => (alignNormalizedOptions opts).contains h) <
      max 1 (min 2
        ((min (alignNormalizedHeaders t).length (alignNormalizedOptions opts).length + 1) /
          2))) :
    alignAndValidateSizeTableByOptionLabels t opts = none := by
  simp only [alignAndValidateSizeTableByOptionLabels]
  rw [h1]
  simp only [Bool.not_true, Bool.false_eq_true, if_false]
  rw [if_neg h2, if_neg h3, if_neg (show ¬_ = true by rw [h4]; simp),
    if_neg h5, if_pos h6]

/-- C5 counterexample: on the two-matched-options path the 40% unmatched-header
rule is not applied.  With headers `항목/S/M/X1/X2/X3` and known options
`S, M`, three of the five size headers (60%) are unmatched, yet the aligner
returns the projected table instead of `null`. -/
theorem c5_counterexample :
    alignAndValidateSizeTableByOptionLabels
        ⟨["항목", "S", "M", "X1", "X2", "X3"], [["가슴", "40", "41", "42", "43", "44"]]⟩
        ["S", "M"] =
      some ⟨["항목", "S", "M"], [["가슴", "40", "41"]]⟩ ∧
    max 1 (2 * (alignNormalizedHeaders
        ⟨["항목", "S", "M", "X1", "X2", "X3"],
          [["가슴", "40", "41", "42", "43", "44"]]⟩).length / 5) <
      (alignNormalizedHeaders
        ⟨["항목", "S", "M", "X1", "X2", "X3"],
          [["가슴", "40", "41", "42", "43", "44"]]⟩).countP
        (fun h => !((alignNormalizedOptions ["S", "M"]).contains h)) :=
  ⟨by decide, by decide⟩

/-- C5 (amended): when the size headers are exact-count sequential numeric
labels and the option list has the same length, the headers are replaced
wholesale by the options in order (concretely, `item/0/1/2` with options
`S, M, L` becomes `item/S/M/L`); on the fallback path with fewer than 2
matched options, the aligner returns `null` whenever the overlap count is
below the required threshold (at least 2, or half of the smaller side for
small tables) — concretely, unrelated options `S, M` against numeric headers
yield `null`.  The 40% unmatched-header rejection belongs only to that
fallback path; the two-or-more-matched-options path projects the table without
it. -/
theorem c5_align_amended :
    (∀ (t : SizeTable) (opts : List String),
      hasUsableSizeTableShape t = true →
      ¬(alignNormalizedOptions opts).length < 2 →
      ¬(alignNormalizedHeaders t).length < 2 →
      areSequentialNumericSizeHeaders (alignNormalizedHeaders t) = true →
      (alignNormalizedOptions opts).length = (alignNormalizedHeaders t).length →
      alignAndValidateSizeTableByOptionLabels t opts =
        some ⟨headOrItem t.headers :: alignNormalizedOptions opts, t.rows⟩) ∧
    (∀ (t : SizeTable) (opts : List String),
      hasUsableSizeTableShape t = true →
      ¬(alignNormalizedOptions opts).length < 2 →
      ¬(alignNormalizedHeaders t).length < 2 →
      (areSequentialNumericSizeHeaders (alignNormalizedHeaders t) &&
        (alignNormalizedOptions opts).length = (alignNormalizedHeaders t).length) =
          false →
      ¬2 ≤ ((alignNormalizedOptions opts).filter fun v =>
        (idxLookup
          (buildOptionIndex (alignNormalizedOptions opts) (alignNormalizedHeaders t))
          v).isSome).length →
      (alignNormalizedHeaders t).countP
          (fun h => (alignNormalizedOptions opts).contains h) <
        max 1 (min 2
          ((min (alignNormalizedHeaders t).length
            (alignNormalizedOptions opts).length + 1) / 2)) →
      alignAndValidateSizeTableByOptionLabels t opts = none) ∧
    alignAndValidateSizeTableByOptionLabels
        ⟨["item", "0", "1", "2"], [["가슴", "1", "2", "3"]]⟩ ["S", "M", "L"] =
      some ⟨["item", "S", "M", "L"], [["가슴", "1", "2", "3"]]⟩ :=
  ⟨fun _ _ h1 h2 h3 h4 h5 => align_wholesale h1 h2 h3 h4 h5,
   fun _ _ h1 h2 h3 h4 h5 h6 => align_below_threshold h1 h2 h3 h4 h5 h6,
   by decide⟩

theorem c5_align_amended_witness :
    alignAndValidateSizeTableByOptionLabels
        ⟨["item", "0", "1", "2"], [["가슴", "1", "2", "3"]]⟩ ["S", "M", "L"] =
      some ⟨headOrItem ["item", "0", "1", "2"] :: alignNormalizedOptions ["S", "M", "L"],
        [["가슴", "1", "2", "3"]]⟩ ∧
    alignAndValidateSizeTableByOptionLabels
        ⟨["항목", "95", "100", "105"], [["가슴", "52", "54", "56"]]⟩ ["S", "M"] =
      none :=
  ⟨c5_align_amended.1 ⟨["item", "0", "1", "2"], [["가슴", "1", "2", "3"]]⟩
      ["S", "M", "L"] (by decide) (by decide) (by decide) (by decide) (by decide),
   c5_align_amended.2.1 ⟨["항목", "95", "100", "105"], [["가슴", "52", "54", "56"]]⟩
      ["S", "M"] (by decide) (by decide) (by decide) (by decide) (by decide) (by decide)⟩

/-! ### Claim C6 -/

theorem considerStep_snd_mono (best p : Option SizeTable × Int) :
    best.2 ≤ (considerStep best p).2 := by
  unfold considerStep
  split
  · exact le_refl _
  · simp only []
    split
    · exact le_refl _
    · split
      · next h => exact le_of_lt h
      · exact le_refl _

theorem foldl_considerStep_snd_mono (cands : List (Option SizeTable × Int))
    (init : Option SizeTable × Int) :
    init.2 ≤ (cands.foldl considerStep init).2 := by
  induction cands generalizing init with
  | nil => exact le_refl _
  | cons p rest ih =>
    exact le_trans (considerStep_snd_mono init p) (ih (considerStep init p))

theorem considerStep_result (best p : Option SizeTable × Int) :
    considerStep best p = best ∨
    ∃ t, p.1 = some t ∧ 0 ≤ scoreSizeTableCandidate (some t) ∧
      considerStep best p = (some t, scoreSizeTableCandidate (some t) + p.2) := by
  unfold considerStep
  split
  · exact Or.inl rfl
  · next t heq =>
    simp only []
    split
    · exact Or.inl rfl
    · next hs =>
      split
      · exact Or.inr ⟨t, heq, by omega, rfl⟩
      · exact Or.inl rfl

theorem considerFold_mem : ∀ (cands : List (Option SizeTable × Int))
    (init : Option SizeTable × Int),
    cands.foldl considerStep init = init ∨
    ∃ t b, (some t, b) ∈ cands ∧ 0 ≤ scoreSizeTableCandidate (some t) ∧
      cands.foldl considerStep init = (some t, scoreSizeTableCandidate (some t) + b) := by
  intro cands
  induction cands with
  | nil => intro init; exact Or.inl rfl
  | cons p rest ih =>
    intro init
    rcases considerStep_result init p with hstep | ⟨t, hp, hs, hstep⟩
    · rcases ih (considerStep init p) with hrest | ⟨t, b, hmem, hs, hrest⟩
      · left
        show rest.foldl considerStep (considerStep init p) = init
        rw [hrest, hstep]
      · right
        exact ⟨t, b, List.mem_cons_of_mem _ hmem, hs, hrest⟩
    · rcases ih (considerStep init p) with hrest | ⟨t', b', hmem, hs', hrest⟩
      · right
        refine ⟨t, p.2, ?_, hs, ?_⟩
        · have hp' : p = (some t, p.2) := by
            cases p with
            | mk a b => simpa using hp
          rw [hp']
          exact List.mem_cons_self _ _
        · show rest.foldl considerStep (considerStep init p) = _
          rw [hrest, hstep]
      · right
        exact ⟨t', b', List.mem_cons_of_mem _ hmem, hs', hrest⟩

theorem considerFold_max : ∀ (cands : List (Option SizeTable × Int))
    (init : Option SizeTable × Int) (t' : SizeTable) (b' : Int),
    (some t', b') ∈ cands → 0 ≤ scoreSizeTableCandidate (some t') →
    scoreSizeTableCandidate (some t') + b' ≤ (cands.foldl considerStep init).2 := by
  intro cands
  induction cands with
  | nil => intro init t' b' hmem; exact absurd hmem (List.not_mem_nil _)
  | cons p rest ih =>
    intro init t' b' hmem hs
    rcases List.mem_cons.mp hmem with rfl | hmem
    · have hstep : scoreSizeTableCandidate (some t') + b' ≤ (considerStep init (some t', b')).2 := by
        unfold considerStep
        simp only []
        rw [if_neg (by omega)]
        split
        · exact le_refl _
        · next h => omega
      exact le_trans hstep (foldl_considerStep_snd_mono rest _)
    · exact ih (considerStep init p) t' b' hmem hs

theorem considerFold_first_wins : ∀ (rest : List (Option SizeTable × Int))
    (t : SizeTable) (m : Int),
    (∀ p ∈ rest, ∀ t', p.1 = some t' → 0 ≤ scoreSizeTableCandidate (some t') →
      scoreSizeTableCandidate (some t') + p.2 ≤ m) →
    rest.foldl considerStep (some t, m) = (some t, m) := by
  intro rest
  induction rest with
  | nil => intro t m _; rfl
  | cons p rs ih =>
    intro t m hbound
    have hstep : considerStep (some t, m) p = (some t, m) := by
      unfold considerStep
      split
      · rfl
      · next t' hp =>
        simp only []
        split
        · rfl
        · next hneg =>
          have hb := hbound p (List.mem_cons_self _ _) t' hp (by omega)
          rw [if_neg (by omega)]
    show rs.foldl considerStep (considerStep (some t, m) p) = _
    rw [hstep]
    exact ih t m (fun q hq => hbound q (List.mem_cons_of_mem _ hq))

set_option maxRecDepth 100000 in
set_option maxHeartbeats 2000000 in
/-- C6 counterexample: the page-level selector does not pick the highest
raw-scoring candidate.  On a page holding both the HTML fixture (raw score 4)
and the JSON fixture (raw score 5), the extractor returns the HTML table,
because comparison uses bonus-weighted scores (HTML bonus `+2`, JSON `+0`),
so `4 + 2` beats `5 + 0`. -/
theorem c6_counterexample :
    extractSizeTableFromHtmlTables htmlFixtureA =
      some ⟨["항목", "X1", "X2"], [["길이수치", "10", "20"], ["기타", "30", "40"]]⟩ ∧
    extractSizeTableFromJsonData (some jsonFixtureA) =
      some ⟨["항목", "Y1", "Y2"],
        [["길이수치", "10", "20"], ["기타", "30", "40"], ["잡값", "50", "60"]]⟩ ∧
    scoreSizeTableCandidate (extractSizeTableFromHtmlTables htmlFixtureA) = 4 ∧
    scoreSizeTableCandidate (extractSizeTableFromJsonData (some jsonFixtureA)) = 5 ∧
    extractSizeTableFromPage htmlFixtureA [] (some jsonFixtureA) =
      some ⟨["항목", "X1", "X2"], [["길이수치", "10", "20"], ["기타", "30", "40"]]⟩ :=
  ⟨by decide, by decide, by decide, by decide, by decide⟩

/-- C6 (amended): `extractSizeTableFromPage` folds the candidate list in
priority order (HTML tables, JSON, text blocks, full text) and returns the
candidate whose bonus-weighted score — raw score plus the source bonus of
`+2` for HTML, `+1` for free text and `+0` for JSON — is maximal, with a
strict comparison so that earlier (higher-priority) candidates win ties; the
winner always is one of the candidates, has a non-negative raw score, and its
weighted score bounds every other non-negative candidate's weighted score. -/
theorem c6_page_selector_amended :
    (∀ (html : String) (textBlocks : List String) (jsonData : Option Json),
      extractSizeTableFromPage html textBlocks jsonData =
        (considerFold (pageCandidates html textBlocks jsonData)).1) ∧
    (∀ (cands : List (Option SizeTable × Int)) (t : SizeTable),
      (considerFold cands).1 = some t →
      0 ≤ scoreSizeTableCandidate (some t) ∧
      ∃ b, (some t, b) ∈ cands ∧
        (considerFold cands).2 = scoreSizeTableCandidate (some t) + b) ∧
    (∀ (cands : List (Option SizeTable × Int)) (t' : SizeTable) (b' : Int),
      (some t', b') ∈ cands → 0 ≤ scoreSizeTableCandidate (some t') →
      scoreSizeTableCandidate (some t') + b' ≤ (considerFold cands).2) ∧
    (∀ (t : SizeTable) (b : Int) (rest : List (Option SizeTable × Int)),
      0 ≤ scoreSizeTableCandidate (some t) → 0 ≤ b →
      (∀ p ∈ rest, ∀ t', p.1 = some t' → 0 ≤ scoreSizeTableCandidate (some t') →
        scoreSizeTableCandidate (some t') + p.2 ≤ scoreSizeTableCandidate (some t) + b) →
      (considerFold ((some t, b) :: rest)).1 = some t) :=
  ⟨fun _ _ _ => rfl,
   fun cands t h => by
    rcases considerFold_mem cands (none, -1) with hfold | ⟨t0, b0, hmem, hs, hfold⟩
    · rw [considerFold] at h
      rw [hfold] at h
      exact absurd h (by simp)
    · rw [considerFold] at h
      rw [hfold] at h
      have ht : t0 = t := by simpa using h
      subst ht
      exact ⟨hs, b0, hmem, by rw [considerFold, hfold]⟩,
   fun cands t' b' hmem hs => considerFold_max cands (none, -1) t' b' hmem hs,
   fun t b rest hs hb hbound => by
    have hstep : considerStep (none, -1) (some t, b) =
        (some t, scoreSizeTableCandidate (some t) + b) := by
      unfold considerStep
      simp only []
      rw [if_neg (by omega), if_pos (by omega)]
    show (List.foldl considerStep (considerStep (none, -1) (some t, b)) rest).1 = some t
    rw [hstep, considerFold_first_wins rest t _ hbound]⟩

theorem c6_page_selector_amended_witness :
    extractSizeTableFromPage htmlFixtureA [] none =
      (considerFold (pageCandidates htmlFixtureA [] none)).1 ∧
    (considerFold
        [(some (⟨["항목", "95", "100", "105"],
          [["가슴", "52", "54", "56"]]⟩ : SizeTable), 2)]).1 =
      some ⟨["항목", "95", "100", "105"], [["가슴", "52", "54", "56"]]⟩ ∧
    scoreSizeTableCandidate
        (some (⟨["항목", "95", "100", "105"], [["가슴", "52", "54", "56"]]⟩ : SizeTable)) +
        2 ≤
      (considerFold
        [(some (⟨["항목", "95", "100", "105"],
          [["가슴", "52", "54", "56"]]⟩ : SizeTable), 2)]).2 :=
  ⟨c6_page_selector_amended.1 htmlFixtureA [] none,
   c6_page_selector_amended.2.2.2
     ⟨["항목", "95", "100", "105"], [["가슴", "52", "54", "56"]]⟩ 2 []
     (by decide) (by decide) (fun p hp => absurd hp (List.not_mem_nil p)),
   c6_page_selector_amended.2.2.1
     [(some ⟨["항목", "95", "100", "105"], [["가슴", "52", "54", "56"]]⟩, 2)]
     ⟨["항목", "95", "100", "105"], [["가슴", "52", "54", "56"]]⟩ 2
     (List.mem_singleton.mpr rfl) (by decide)⟩

/-! ### Claim C7 -/

theorem ok_bind {α β : Type} (a : α) (f : α → Except Unit β) :
    ((Except.ok a : Except Unit α) >>= f) = f a := rfl

theorem readU32BE_eq {b : List Nat} {i : Nat} (h : i + 4 ≤ b.length) :
    readU32BE b i = .ok (beU32 b i) := by
  unfold readU32BE beU32
  rw [if_pos h]

theorem readU16BE_ok {b : List Nat} {i : Nat} (h : i + 2 ≤ b.length) :
    ∃ w, readU16BE b i = .ok w :=
  ⟨_, by unfold readU16BE; rw [if_pos h]⟩

theorem readU32LE_ok {b : List Nat} {i : Nat} (h : i + 4 ≤ b.length) :
    ∃ w, readU32LE b i = .ok w :=
  ⟨_, by unfold readU32LE; rw [if_pos h]⟩

theorem readU16LE_ok {b : List Nat} {i : Nat} (h : i + 2 ≤ b.length) :
    ∃ w, readU16LE b i = .ok w :=
  ⟨_, by unfold readU16LE; rw [if_pos h]⟩

theorem readU24LE_ok {b : List Nat} {i : Nat} (h : i + 3 ≤ b.length) :
    ∃ w, readU24LE b i = .ok w :=
  ⟨_, by unfold readU24LE; rw [if_pos h]⟩

theorem readPng_ok (b : List Nat) : ∃ r, readPngDimensions b = .ok r := by
  unfold readPngDimensions
  split
  · exact ⟨none, rfl⟩
  · next h1 =>
    split
    · exact ⟨none, rfl⟩
    · rw [readU32BE_eq (by omega), ok_bind, readU32BE_eq (by omega), ok_bind]
      split
      · exact ⟨none, rfl⟩
      · exact ⟨some _, rfl⟩

theorem readPng_formula {b : List Nat} (h1 : 24 ≤ b.length)
    (h2 : b.take 8 = pngSignature)
    (h3 : ¬(beU32 b 16 = 0 ∨ beU32 b 20 = 0)) :
    readPngDimensions b = .ok (some ⟨beU32 b 16, beU32 b 20⟩) := by
  unfold readPngDimensions
  rw [if_neg (by omega), if_neg (by simp [h2]), readU32BE_eq (by omega), ok_bind,
    readU32BE_eq (by omega), ok_bind, if_neg h3]
  rfl

theorem jpegLoop_ok (b : List Nat) :
    ∀ fuel offset, ∃ r, jpegLoop b fuel offset = .ok r := by
  intro fuel
  induction fuel with
  | zero => intro o; exact ⟨none, rfl⟩
  | succ fuel ih =>
    intro offset
    unfold jpegLoop
    split
    · exact ⟨none, rfl⟩
    · next hlen =>
      split
      · exact ih (offset + 1)
      · simp only []
        split
        · exact ⟨none, rfl⟩
        · split
          · exact ⟨none, rfl⟩
          · next h2 h3 =>
            obtain ⟨len, hread⟩ := readU16BE_ok (b := b) (i := offset + 2) (by omega)
            rw [hread, ok_bind]
            split
            · exact ⟨none, rfl⟩
            · split
              · next hsof =>
                obtain ⟨h16, hh⟩ := readU16BE_ok (b := b) (i := offset + 5) (by omega)
                obtain ⟨w16, hw⟩ := readU16BE_ok (b := b) (i := offset + 7) (by omega)
                rw [hh, ok_bind, hw, ok_bind]
                split
                · exact ⟨some _, rfl⟩
                · exact ih (offset + 2 + len)
              · exact ih (offset + 2 + len)

theorem readJpeg_ok (b : List Nat) : ∃ r, readJpegDimensions b = .ok r := by
  unfold readJpegDimensions
  split
  · exact ⟨none, rfl⟩
  · split
    · exact ⟨none, rfl⟩
    · exact jpegLoop_ok b b.length 2

theorem pure_bind_ex {α β : Type} (a : α) (f : α → Except Unit β) :
    ((pure a : Except Unit α) >>= f) = f a := rfl

theorem match_opt_ok {rest : Except Unit (Option Dim)} (hrest : ∃ r, rest = .ok r)
    (e : Option Dim) :
    ∃ r : Option Dim, (match e with
      | some d => (pure (some d) : Except Unit (Option Dim))
      | none => rest) = Except.ok r := by
  cases e with
  | some d => exact ⟨some d, rfl⟩
  | none => exact hrest

theorem webpLoop_ok (b : List Nat) :
    ∀ fuel offset, ∃ r, webpLoop b fuel offset = .ok r := by
  intro fuel
  induction fuel with
  | zero => intro o; exact ⟨none, rfl⟩
  | succ fuel ih =>
    intro offset
    unfold webpLoop
    split
    · exact ⟨none, rfl⟩
    · next hlen =>
      obtain ⟨sz, hsz⟩ := readU32LE_ok (b := b) (i := offset + 4) (by omega)
      rw [hsz, ok_bind]
      simp only []
      split
      · exact ⟨none, rfl⟩
      · next hfit =>
        split
        · next hvp8x =>
          obtain ⟨w24, hw⟩ := readU24LE_ok (b := b) (i := offset + 8 + 4) (by omega)
          obtain ⟨h24, hh⟩ := readU24LE_ok (b := b) (i := offset + 8 + 7) (by omega)
          rw [hw, ok_bind, hh, ok_bind, pure_bind_ex]
          apply match_opt_ok
          split
          · next hvp8 =>
            split
            · next hstart =>
              obtain ⟨w16, hw2⟩ := readU16LE_ok (b := b) (i := offset + 8 + 3 + 3) (by omega)
              obtain ⟨h16, hh2⟩ := readU16LE_ok (b := b) (i := offset + 8 + 3 + 5) (by omega)
              rw [hw2, ok_bind, hh2, ok_bind, pure_bind_ex]
              apply match_opt_ok
              exact match_opt_ok (ih _) _
            · rw [pure_bind_ex]
              dsimp only []
              exact match_opt_ok (ih _) _
          · rw [pure_bind_ex]
            dsimp only []
            exact match_opt_ok (ih _) _
        · rw [pure_bind_ex]
          dsimp only []
          split
          · next hvp8 =>
            split
            · next hstart =>
              obtain ⟨w16, hw2⟩ := readU16LE_ok (b := b) (i := offset + 8 + 3 + 3) (by omega)
              obtain ⟨h16, hh2⟩ := readU16LE_ok (b := b) (i := offset + 8 + 3 + 5) (by omega)
              rw [hw2, ok_bind, hh2, ok_bind, pure_bind_ex]
              apply match_opt_ok
              exact match_opt_ok (ih _) _
            · rw [pure_bind_ex]
              dsimp only []
              exact match_opt_ok (ih _) _
          · rw [pure_bind_ex]
            dsimp only []
            exact match_opt_ok (ih _) _

theorem readWebp_ok (b : List Nat) : ∃ r, readWebpDimensions b = .ok r := by
  unfold readWebpDimensions
  split
  · exact ⟨none, rfl⟩
  · split
    · exact ⟨none, rfl⟩
    · split
      · exact ⟨none, rfl⟩
      · exact webpLoop_ok b b.length 12

theorem getImageDimensions_ok (b : List Nat) (mime : String) :
    ∃ r, getImageDimensions b mime = .ok r := by
  unfold getImageDimensions
  simp only []
  split
  · exact readPng_ok b
  · split
    · exact readJpeg_ok b
    · split
      · exact readWebp_ok b
      · obtain ⟨p, hp⟩ := readPng_ok b
        rw [hp, ok_bind]
        cases p with
        | some d => exact ⟨some d, rfl⟩
        | none =>
          obtain ⟨j, hj⟩ := readJpeg_ok b
          rw [hj, ok_bind]
          cases j with
          | some d => exact ⟨some d, rfl⟩
          | none => exact readWebp_ok b

/-- C7: the image dimension sniffer is total — `getImageDimensions` and each of
the three format readers return `ok` (either `none` or a width/height pair) on
every byte buffer and mime type, never an exception; a PNG buffer that passes
the signature and length checks yields exactly the big-endian 32-bit integers
at offsets 16 and 20; and the three hand-crafted minimal PNG/JPEG/WEBP buffers
round-trip to width 13 and height 37, while truncated or unrecognized buffers
yield `none`. -/
theorem c7_sniffer_total :
    (∀ (b : List Nat) (mime : String), ∃ r, getImageDimensions b mime = .ok r) ∧
    (∀ b : List Nat, ∃ r, readPngDimensions b = .ok r) ∧
    (∀ b : List Nat, ∃ r, readJpegDimensions b = .ok r) ∧
    (∀ b : List Nat, ∃ r, readWebpDimensions b = .ok r) ∧
    (∀ b : List Nat, 24 ≤ b.length → b.take 8 = pngSignature →
      ¬(beU32 b 16 = 0 ∨ beU32 b 20 = 0) →
      readPngDimensions b = .ok (some ⟨beU32 b 16, beU32 b 20⟩)) ∧
    readPngDimensions pngFixture = .ok (some ⟨13, 37⟩) ∧
    readJpegDimensions jpegFixture = .ok (some ⟨13, 37⟩) ∧
    readWebpDimensions webpFixture = .ok (some ⟨13, 37⟩) ∧
    getImageDimensions (pngFixture.take 10) "image/png" = .ok none ∧
    getImageDimensions [1, 2, 3] "application/octet-stream" = .ok none :=
  ⟨getImageDimensions_ok, readPng_ok, readJpeg_ok, readWebp_ok,
   fun _ h1 h2 h3 => readPng_formula h1 h2 h3,
   rfl, rfl, rfl, rfl, rfl⟩

theorem c7_sniffer_total_witness :
    readPngDimensions pngFixture =
      .ok (some ⟨beU32 pngFixture 16, beU32 pngFixture 20⟩) :=
  c7_sniffer_total.2.2.2.2.1 pngFixture (by decide) (by decide) (by decide)

/-! ### Claim C8 -/

theorem jsonLoop_popped_le : ∀ (fuel : Nat) (stack : List Json)
    (best : Option SizeTable × Int), (jsonLoop fuel stack best).2 ≤ fuel := by
  intro fuel
  induction fuel with
  | zero => intro stack best; simp [jsonLoop]
  | succ fuel ih =>
    intro stack best
    cases stack with
    | nil => simp [jsonLoop]
    | cons node rest =>
      simp only [jsonLoop]
      rcases hres : jsonLoop fuel ((jsonChildren node).reverse ++ rest)
        (processNode node best) with ⟨r, n⟩
      have := ih ((jsonChildren node).reverse ++ rest) (processNode node best)
      rw [hres] at this
      simpa using this

/-- C8: the JSON structured-data extractor is a bounded worklist traversal — the
loop pops at most 3000 nodes from any stack (its popped-node counter never
exceeds the fuel), so it returns on every JSON value, and
`extractSizeTableFromJsonData` is exactly that 3000-node loop followed by the
score gate; on the sample payload the traversal pops 6 nodes. -/
theorem c8_json_bounded :
    (∀ (stack : List Json) (best : Option SizeTable × Int),
      (jsonLoop 3000 stack best).2 ≤ 3000) ∧
    (∀ j : Json, jsTruthy j = true →
      extractSizeTableFromJsonData (some j) =
        (if 4 ≤ (jsonLoop 3000 [j] (none, -1)).1.2
          then (jsonLoop 3000 [j] (none, -1)).1.1 else none)) ∧
    (jsonLoop 3000 [jsonFixtureA] (none, -1)).2 = 6 :=
  ⟨fun stack best => jsonLoop_popped_le 3000 stack best,
   fun j hj => by
    simp only [extractSizeTableFromJsonData]
    rw [hj]
    simp only [Bool.not_true, Bool.false_eq_true, if_false],
   by decide⟩

theorem c8_json_bounded_witness :
    extractSizeTableFromJsonData (some jsonFixtureA) =
      (if 4 ≤ (jsonLoop 3000 [jsonFixtureA] (none, -1)).1.2
        then (jsonLoop 3000 [jsonFixtureA] (none, -1)).1.1 else none) :=
  c8_json_bounded.2.1 jsonFixtureA (by decide)

/-! ### Claim C9 -/

theorem or11_regroup : ∀ a1 a2 a3 a4 a5 a6 a7 a8 a9 a10 a11 : Bool,
    (a1 || a2 || a3 || a4 || a5 || a6 || a7 || a8 || a9 || a10 || a11) =
      ((a1 || a2 || a3) || (a4 || a5 || a6) || a11 || a7 || a8 || (a9 || a10)) := by
  decide

/-- C9 counterexample: the claim's description of `isLikelySizeLabel` is wrong
in three places — `999(FIT)` is accepted by the code although its numeric part
exceeds 400 (annotated numerics carry no value bound), `FREE(95)` is rejected
although the claim allows annotations on `FREE`, and `00001` is rejected
although its value lies in [0, 400] (the plain-numeric regex allows at most 4
integer digits). -/
theorem c9_counterexample :
    (isLikelySizeLabel "999(FIT)" = true ∧ specSizeLabelClaimed "999(FIT)" = false) ∧
    (isLikelySizeLabel "FREE(95)" = false ∧ specSizeLabelClaimed "FREE(95)" = true) ∧
    (isLikelySizeLabel "00001" = false ∧ specSizeLabelClaimed "00001" = true) :=
  ⟨⟨by decide, by decide⟩, ⟨by decide, by decide⟩, ⟨by decide, by decide⟩⟩

/-- C9 (amended): `isLikelySizeLabel` accepts exactly the alpha sizes
`XXS..XXXL` (optionally with a parenthetical numeric or descriptor
annotation), bare `FREE` and `ONE SIZE`, 1-3-digit numeric sizes with a
parenthetical alpha-size, range, or descriptor annotation (no value bound),
purely numeric sizes of at most 4 integer digits with value in [0, 400],
region-prefixed sizes, waist/inseam combos, and mixed alpha-numeric combos;
every other string is rejected. -/
theorem c9_size_label_amended :
    ∀ v : String, isLikelySizeLabel v = specSizeLabelAmended v := by
  intro v
  unfold isLikelySizeLabel specSizeLabelAmended amendedAlphaSize
    amendedNumericAnnotated claimedMixedCombo
  by_cases h : normalizeSizeLabel v = ""
  · simp [h]
  · rw [if_neg h, if_neg h]
    exact or11_regroup _ _ _ _ _ _ _ _ _ _ _

/-! ### Claim C10 -/

set_option maxRecDepth 100000 in
set_option maxHeartbeats 2000000 in
/-- C10: both structured extractors apply an implicit minimum-score gate of 4 —
`extractSizeTableFromHtmlTables` returns its best candidate exactly when the
boost-included best score reaches 4 and `null` below that, and
`extractSizeTableFromJsonData` gates on the raw best score of its traversal;
on the fixtures, both extractors hold a candidate scoring 3 (non-negative) and
still return `null`. -/
theorem c10_min_score_gate :
    (∀ html : String, (htmlTablesScan html).2 < 4 →
      extractSizeTableFromHtmlTables html = none) ∧
    (∀ html : String, 4 ≤ (htmlTablesScan html).2 →
      extractSizeTableFromHtmlTables html = (htmlTablesScan html).1) ∧
    (∀ j : Json, jsTruthy j = true → (jsonLoop 3000 [j] (none, -1)).1.2 < 4 →
      extractSizeTableFromJsonData (some j) = none) ∧
    (∀ j : Json, jsTruthy j = true → 4 ≤ (jsonLoop 3000 [j] (none, -1)).1.2 →
      extractSizeTableFromJsonData (some j) = (jsonLoop 3000 [j] (none, -1)).1.1) ∧
    (htmlTablesScan htmlFixtureB =
      (some ⟨["항목", "X1", "X2"], [["길이수치", "10", "20"]]⟩, 3) ∧
      extractSizeTableFromHtmlTables htmlFixtureB = none) ∧
    ((jsonLoop 3000 [jsonFixtureB] (none, -1)).1 =
      (some ⟨["항목", "Y1", "Y2"], [["길이수치", "10", "20"]]⟩, 3) ∧
      extractSizeTableFromJsonData (some jsonFixtureB) = none) :=
  ⟨fun html h => by
    unfold extractSizeTableFromHtmlTables
    simp only []
    rw [if_neg (by omega)],
   fun html h => by
    unfold extractSizeTableFromHtmlTables
    simp only []
    rw [if_pos h],
   fun j hj h => by
    simp only [extractSizeTableFromJsonData]
    rw [hj]
    simp only [Bool.not_true, Bool.false_eq_true, if_false]
    rw [if_neg (by omega)],
   fun j hj h => by
    simp only [extractSizeTableFromJsonData]
    rw [hj]
    simp only [Bool.not_true, Bool.false_eq_true, if_false]
    rw [if_pos h],
   ⟨by decide, by decide⟩,
   ⟨by decide, by decide⟩⟩

set_option maxRecDepth 100000 in
theorem c10_min_score_gate_witness :
    extractSizeTableFromHtmlTables htmlFixtureB = none ∧
    extractSizeTableFromJsonData (some jsonFixtureB) = none :=
  ⟨c10_min_score_gate.1 htmlFixtureB (by decide),
   c10_min_score_gate.2.2.1 jsonFixtureB (by decide) (by decide)⟩
